import Mathlib

/-!
# Verification of the zappaclang calculator front end and evaluator

A shallow embedding, in Lean 4, of the zappaclang repository: the lexical
scanner (the `lex*` state functions embedded in the sources), the validating
parser (`parser.go`: `nextItem`, `readTokens`, `Parse`) and the PEMDAS
evaluator (`exec.go`: `findNext`, `findClosing`, `replace`, `readValue`,
`calculate`, `calculateNodes`, `pemdas`, `Exec`), together with the node
model (`node.go`: the more complete snapshot, the one with `NodeEOF` and
`NodeClear`).

Modelling conventions, used throughout:
* Go `float64` arithmetic is modelled by `ℚ` (exact rationals).  Every
  theorem below either avoids the arithmetic entirely or is insensitive to
  rounding, so the substitution is harmless; each helper that models a Go
  standard-library call documents exactly what it covers.
* Go byte positions are modelled as character positions; all literals and
  operators of the language are ASCII, where the two coincide.
* Go run-time panics (index out of range, slice bounds) are modelled
  explicitly by dedicated `panicked` constructors, never silently totalised.
* Go channels: the lexer/parser single-slot handoff is replaced by the lexer
  output list, consumed in order — behaviourally identical, as the parser
  never needs more than one item of lookahead.
-/

namespace Zappaclang

/-! ## Character helpers

`charToLower` models the per-character action of Go `strings.ToLower` on the
ASCII range, which covers every character the lexer and the evaluator can
place into a `NumberNode` value (digits, `.`, `-`, `x`, `b`, hex letters). -/

/-- Models `strings.ToLower` on one character (ASCII range). -/
def charToLower (c : Char) : Char :=
  if 65 ≤ c.toNat ∧ c.toNat ≤ 90 then Char.ofNat (c.toNat + 32) else c

/-- Models `strings.ToLower` (ASCII range), as used by `newNumber`. -/
def strToLower (s : String) : String :=
  String.mk (s.data.map charToLower)

/-! ## The node model (`node.go`, the snapshot with `NodeEOF` and `NodeClear`) -/

/-- `NumberSystem` defines which of the number systems should be used. -/
inductive NumberSystem
  | Dec
  | Hex
  | Bin
  | Oct
deriving DecidableEq, BEq

/-- The stringer-generated rendering of `NumberSystem` (const names). -/
def NumberSystem.render : NumberSystem → String
  | .Dec => "Dec"
  | .Hex => "Hex"
  | .Bin => "Bin"
  | .Oct => "Oct"

/-- `NodeType` identifies the different types of nodes.  `NodeEOF` is the
zero value (first constructor), as in the source `iota` block.
`NodeParsingStopped` — Modelled from the spec: the explicit "parsing
stopped" diagnostic marker appended by `parse` (`newParsingStopped` is
referenced by `parser.go` but its definition is not among the sources). -/
inductive NodeType
  | NodeEOF
  | NodeAssign
  | NodeLParen
  | NodeRParen
  | NodeNumber
  | NodeVariable
  | NodeAdd
  | NodeSub
  | NodeMult
  | NodeExp
  | NodeDiv
  | NodeFdiv
  | NodeAnd
  | NodeOr
  | NodeXor
  | NodeInv
  | NodeMod
  | NodeLShift
  | NodeRShift
  | NodeAbs
  | NodeSetOutput
  | NodeSave
  | NodeLoad
  | NodeClear
  | NodeParsingStopped
deriving DecidableEq, BEq

open NodeType

/-- `OperatorNodes` are operators between values. -/
def OperatorNodes : List NodeType :=
  [NodeAdd, NodeSub, NodeMult, NodeExp, NodeDiv, NodeFdiv, NodeAnd, NodeOr,
   NodeXor, NodeInv, NodeMod, NodeLShift, NodeRShift]

/-- `operatorMap`: operator text to node type.  A missing key yields the Go
zero value `NodeType(0) = NodeEOF`. -/
def operatorMap (s : String) : NodeType :=
  if s = "+" then NodeAdd
  else if s = "-" then NodeSub
  else if s = "*" then NodeMult
  else if s = "**" then NodeExp
  else if s = "/" then NodeDiv
  else if s = "//" then NodeFdiv
  else if s = "&" then NodeAnd
  else if s = "|" then NodeOr
  else if s = "^" then NodeXor
  else if s = "~" then NodeInv
  else if s = "%" then NodeMod
  else if s = "<<" then NodeLShift
  else if s = ">>" then NodeRShift
  else NodeEOF

/-- `diskOperationMap`: verb text to node type; missing key yields the zero
value `NodeEOF`. -/
def diskOperationMap (s : String) : NodeType :=
  if s = "save" then NodeSave
  else if s = "load" then NodeLoad
  else NodeEOF

/-- `numberSystemMap`: output-selector text to `NumberSystem`; a missing key
yields the Go zero value `Dec`. -/
def numberSystemMap (s : String) : NumberSystem :=
  if s = "dec" then .Dec
  else if s = "bin" then .Bin
  else if s = "hex" then .Hex
  else if s = "oct" then .Oct
  else .Dec

/-- Nodes that can be prefixes to most values. -/
def prefixNodes : List NodeType := [NodeLParen, NodeSetOutput, NodeAssign]

/-- `ValueNodes` are values that can be evaluated as values. -/
def ValueNodes : List NodeType := [NodeNumber, NodeVariable]

/-- `parseNumberSystem` (node.go): infer the radix of a literal from its
text.  Go indexes `number[0]` and `number[1]` directly (and would panic on
the empty string, which no caller passes); the empty case is mapped to the
zero value `Dec`. -/
def parseNumberSystem (number : String) : NumberSystem :=
  match number.data with
  | [] => .Dec
  | c0 :: tail =>
    if c0 = 'b' ∨ c0 = 'B' then .Bin
    else if c0 = '0' then
      match tail with
      | [] => .Dec
      | c1 :: _ =>
        if c1 = 'x' ∨ c1 = 'X' then .Hex
        else if c1 = '.' then .Dec
        else .Oct
    else .Dec

/-- `NumberNode` (123, 0.123, 0xff, b001, 0755).  The embedded `NodeType`
and `Pos` fields of the Go struct are kept; the Go zero value is
`{NodeEOF, 0, "", Dec}`. -/
structure NumberNode where
  typ : NodeType
  pos : Int
  value : String
  system : NumberSystem
deriving DecidableEq, BEq

/-- The Go zero value of `NumberNode`, produced by a failed two-value type
assertion `node.(NumberNode)`. -/
def zeroNumberNode : NumberNode :=
  { typ := NodeEOF, pos := 0, value := "", system := .Dec }

/-- `newNumber`: builds a `NumberNode`, lowercasing the text value. -/
def newNumber (pos : Int) (value : String) (system : NumberSystem) : NumberNode :=
  { typ := NodeNumber, pos := pos, value := strToLower value, system := system }

/-- `OperatorNode` (+ - * ** / // & | ^ ~ % << >>). -/
structure OperatorNode where
  typ : NodeType
  pos : Int
  operator : String
deriving DecidableEq, BEq

/-- The Go zero value of `OperatorNode`. -/
def zeroOperatorNode : OperatorNode :=
  { typ := NodeEOF, pos := 0, operator := "" }

/-- `newOperator`. -/
def newOperator (pos : Int) (op : String) : OperatorNode :=
  { typ := operatorMap op, pos := pos, operator := op }

/-- `DiskOperationNode` (save(name), load(name)). -/
structure DiskOperationNode where
  typ : NodeType
  pos : Int
  operation : String
  profile : String
deriving DecidableEq, BEq

/-- The Go zero value of `DiskOperationNode`. -/
def zeroDiskOperationNode : DiskOperationNode :=
  { typ := NodeEOF, pos := 0, operation := "", profile := "" }

/-- `newDiskOperation`. -/
def newDiskOperation (pos : Int) (op : String) (profile : String) : DiskOperationNode :=
  { typ := diskOperationMap op, pos := pos, operation := op, profile := profile }

/-- `SetOutputNode` (dec() oct() hex() bin()). -/
structure SetOutputNode where
  typ : NodeType
  pos : Int
  output : NumberSystem
deriving DecidableEq, BEq

/-- The Go zero value of `SetOutputNode`. -/
def zeroSetOutputNode : SetOutputNode :=
  { typ := NodeEOF, pos := 0, output := .Dec }

/-- `newSetOutput`. -/
def newSetOutput (pos : Int) (output : String) : SetOutputNode :=
  { typ := NodeSetOutput, pos := pos, output := numberSystemMap output }

/-- `AssignNode` ($foo =). -/
structure AssignNode where
  typ : NodeType
  pos : Int
  target : String
deriving DecidableEq, BEq

/-- The Go zero value of `AssignNode`. -/
def zeroAssignNode : AssignNode :=
  { typ := NodeEOF, pos := 0, target := "" }

/-- `newAssign`. -/
def newAssign (pos : Int) (target : String) : AssignNode :=
  { typ := NodeAssign, pos := pos, target := target }

/-- `Node`: the Go `Node` interface; one constructor per implementing
struct. -/
inductive Node
  | eofN (pos : Int)
  | assignN (a : AssignNode)
  | variableN (pos : Int) (name : String)
  | setOutputN (s : SetOutputNode)
  | numberN (n : NumberNode)
  | operatorN (o : OperatorNode)
  | diskOperationN (d : DiskOperationNode)
  | lparenN (pos : Int)
  | rparenN (pos : Int)
  | absN (pos : Int)
  | clearN (pos : Int)
  | parsingStoppedN (pos : Int)
deriving DecidableEq, BEq

open Node

/-- `Node.Type()`: embedded-`NodeType` dispatch.  Struct-carrying nodes
report their embedded field, the others their fixed kind. -/
def Node.type : Node → NodeType
  | eofN _ => NodeEOF
  | assignN a => a.typ
  | variableN _ _ => NodeVariable
  | setOutputN s => s.typ
  | numberN n => n.typ
  | operatorN o => o.typ
  | diskOperationN d => d.typ
  | lparenN _ => NodeLParen
  | rparenN _ => NodeRParen
  | absN _ => NodeAbs
  | clearN _ => NodeClear
  | parsingStoppedN _ => NodeParsingStopped

/-- `Node.String()`: the canonical rendering of each node.
The `parsingStoppedN` case is Modelled from the spec: a terminal failure
marker (its rendering is not observable in any property below). -/
def Node.render : Node → String
  | eofN _ => ""
  | assignN a => a.target ++ " ="
  | variableN _ name => name
  | setOutputN s => s.output.render
  | numberN n => n.value
  | operatorN o => o.operator
  | diskOperationN d => d.operation ++ "(" ++ d.profile ++ ")"
  | lparenN _ => "("
  | rparenN _ => ")"
  | absN _ => "abs"
  | clearN _ => "clear()"
  | parsingStoppedN _ => ""

/-- `newVariable`. -/
def newVariable (pos : Int) (name : String) : Node := variableN pos name

/-- `newLParen`. -/
def newLParen (pos : Int) : Node := lparenN pos

/-- `newRParen`. -/
def newRParen (pos : Int) : Node := rparenN pos

/-- `newAbs`. -/
def newAbs (pos : Int) : Node := absN pos

/-- `newEOF`. -/
def newEOF (pos : Int) : Node := eofN pos

/-- `newClear`. -/
def newClear (pos : Int) : Node := clearN pos

/-- Modelled from the spec: `newParsingStopped`, the terminal failure marker
appended by `parse` (its constructor is referenced by `parser.go` but not
defined among the sources). -/
def newParsingStopped (pos : Int) : Node := parsingStoppedN pos

/-- `IsNodeType` checks if the node is of one of the given types. -/
def IsNodeType (node : Node) (types : List NodeType) : Bool :=
  types.any (fun t => node.type = t)

/-! ## Lexical items and the scanner (the `lex*` state machine in the
sources) -/

/-- `ItemType` identifies the type of lex items (same `iota` order as the
source). -/
inductive ItemType
  | itemError
  | itemEOF
  | itemEquals
  | itemSpace
  | itemLParen
  | itemRParen
  | itemNumber
  | itemVariable
  | itemAdd
  | itemSub
  | itemMult
  | itemExp
  | itemDiv
  | itemFdiv
  | itemAnd
  | itemOr
  | itemXor
  | itemInv
  | itemMod
  | itemLShift
  | itemRShift
  | itemText
  | itemAbs
  | itemSave
  | itemLoad
  | itemDec
  | itemHex
  | itemBin
  | itemOct
  | itemClear
deriving DecidableEq, BEq

-- `itemClear` is Modelled from the spec: `clear` is one of the seven
-- keyword-functions and `readTokens` dispatches on its item kind; the lexer
-- snapshot among the sources predates `clear` support (the spec marks that
-- earlier variant as superseded).

open ItemType

/-- `operatorItems`. -/
def operatorItems : List ItemType :=
  [itemAdd, itemSub, itemMult, itemExp, itemDiv, itemFdiv, itemAnd, itemOr,
   itemXor, itemInv, itemMod, itemLShift, itemRShift]

/-- A lexical item: type, starting byte position, text.  `endP` — Modelled
from the spec: `parser.go` reads an `end` position from each item (the lexer
snapshot among the sources predates that field); it is the byte position
just past the item's text. -/
structure Item where
  typ : ItemType
  pos : Int
  val : String
  endP : Int
deriving DecidableEq, BEq

/-- Builds an item whose `endP` is `pos + |val|` (see `Item.endP`). -/
def mkItem (typ : ItemType) (pos : Nat) (val : String) : Item :=
  { typ := typ, pos := (pos : Int), val := val, endP := ((pos + val.length : Nat) : Int) }

/-- `isItemType` checks if the item is of one of the given types. -/
def isItemType (itm : Item) (types : List ItemType) : Bool :=
  types.any (fun t => itm.typ = t)

/-- The scanner's character classes (`whitespaceChars`, `letters`, `digits`,
`hexadecimal`, `binary`). -/
def whitespaceChars : List Char := [' ', '\t', '\r', '\n']

/-- Lower- and upper-case letters. -/
def letters : List Char :=
  "abcdefghijklmnopqrstuvwxyzABCDEFGHIJKLMNOPQRSTUVWXYZ".data

/-- Decimal digits. -/
def digits : List Char := "0123456789".data

/-- Hexadecimal digits. -/
def hexadecimal : List Char := digits ++ "abcdefABCDEF".data

/-- Binary digits. -/
def binary : List Char := ['0', '1']

/-- The scanner state: input, current position, start of the pending item
(`lexer.input`, `lexer.pos`, `lexer.start`). -/
structure LexState where
  input : List Char
  pos : Nat
  start : Nat
deriving DecidableEq

/-- The not-yet-consumed input. -/
def LexState.rest (l : LexState) : List Char := l.input.drop l.pos

/-- `lexer.accept`: consume the next character if it is in the valid set
(backing up — leaving the position unchanged — otherwise, including at end
of input). -/
def lexAccept (valid : List Char) (l : LexState) : Bool × LexState :=
  match l.rest with
  | [] => (false, l)
  | c :: _ =>
    if valid.contains c then (true, { l with pos := l.pos + 1 }) else (false, l)

/-- Length of the longest prefix of `cs` drawn from `valid`. -/
def runLen (valid : List Char) : List Char → Nat
  | [] => 0
  | c :: cs => if valid.contains c then runLen valid cs + 1 else 0

/-- `lexer.acceptRun`: consume a run of characters from the valid set. -/
def lexAcceptRun (valid : List Char) (l : LexState) : LexState :=
  { l with pos := l.pos + runLen valid l.rest }

/-- `lexer.thisItem`: the item at the current input point (text between
`start` and `pos`), advancing `start`. -/
def lexThisItem (t : ItemType) (l : LexState) : Item × LexState :=
  (mkItem t l.start (String.mk ((l.input.drop l.start).take (l.pos - l.start))),
   { l with start := l.pos })

/-- Does `key` occur at the current position (`strings.HasPrefix` of the
remaining input)? -/
def keyMatches (key : List Char) (l : LexState) : Bool :=
  key.isPrefixOf l.rest

/-- The ordered fixed-token table of `lexBase` (`lexMap`): each entry's
state function accepts exactly the key's characters and emits the item. -/
def lexMap : List (List Char × ItemType) :=
  [(['$'], itemVariable),
   (['('], itemLParen),
   ([')'], itemRParen),
   (['='], itemEquals),
   (['+'], itemAdd),
   (['-'], itemSub),
   (['*', '*'], itemExp),
   (['*'], itemMult),
   (['/', '/'], itemFdiv),
   (['/'], itemDiv),
   (['&'], itemAnd),
   (['|'], itemOr),
   (['^'], itemXor),
   (['~'], itemInv),
   (['%'], itemMod),
   (['<', '<'], itemLShift),
   (['>', '>'], itemRShift)]

/-- `lexVariable`: `$` then a run of letters and underscores, emitted as a
variable item when nonempty (always the case, since `$` was accepted). -/
def lexVariable (l : LexState) : List Item × LexState :=
  let (_, l) := lexAccept ['$'] l
  let l := lexAcceptRun (letters ++ ['_']) l
  if l.pos > l.start then
    let (itm, l) := lexThisItem itemVariable l
    ([itm], l)
  else ([], l)

/-- `lexText`: a letter then a run of letters/underscores; reclassified as a
keyword item when the text matches exactly. -/
def lexText (l : LexState) : List Item × LexState :=
  let (_, l) := lexAccept letters l
  let l := lexAcceptRun (letters ++ ['_']) l
  let (itm, l) := lexThisItem itemText l
  let t :=
    if itm.val = "save" then itemSave
    else if itm.val = "load" then itemLoad
    else if itm.val = "abs" then itemAbs
    else if itm.val = "dec" then itemDec
    else if itm.val = "hex" then itemHex
    else if itm.val = "bin" then itemBin
    else if itm.val = "oct" then itemOct
    -- Modelled from the spec: the `clear` keyword-function (see `itemClear`).
    else if itm.val = "clear" then itemClear
    else itemText
  ([{ itm with typ := t }], l)

/-- The decimal-literal loop of `lexNumber`: digits with at most one
decimal point, in any position.  Structural recursion on the count of
remaining characters. -/
def lexDecimalLoop : Nat → Bool → LexState → LexState
  | 0, _, l => l
  | f + 1, decimal, l =>
    if !decimal then
      match lexAccept ['.'] l with
      | (true, l) => lexDecimalLoop f true l
      | (false, _) =>
        match lexAccept digits l with
        | (true, l) => lexDecimalLoop f decimal l
        | (false, l) => l
    else
      match lexAccept digits l with
      | (true, l) => lexDecimalLoop f decimal l
      | (false, l) => l

/-- `lexNumber`: binary (`b` + binary digits), hex (`0x`/`0X` + hex digits)
or decimal.  Replicates the source's short-circuit evaluation: the `0` of a
non-hex leading-zero literal is consumed by the failed hex test, and a lone
`0` (or `0` followed by a non-digit) falls through without emitting any
item. -/
def lexNumber (l : LexState) : List Item × LexState :=
  match lexAccept ['b'] l with
  | (true, l) =>
    let l := lexAcceptRun binary l
    let (itm, l) := lexThisItem itemNumber l
    ([itm], l)
  | (false, _) =>
    match lexAccept ['0'] l with
    | (true, l0) =>
      match lexAccept ['x', 'X'] l0 with
      | (true, l) =>
        let l := lexAcceptRun hexadecimal l
        let (itm, l) := lexThisItem itemNumber l
        ([itm], l)
      | (false, _) =>
        match lexAccept digits l0 with
        | (true, l) =>
          let l := lexDecimalLoop (l.input.length + 1) false l
          let (itm, l) := lexThisItem itemNumber l
          ([itm], l)
        | (false, l) => ([], l)
    | (false, _) =>
      match lexAccept digits l with
      | (true, l) =>
        let l := lexDecimalLoop (l.input.length + 1) false l
        let (itm, l) := lexThisItem itemNumber l
        ([itm], l)
      | (false, l) => ([], l)

/-- Looks up the first matching entry of `lexMap` at the current position. -/
def lexMapLookup (l : LexState) : Option (List Char × ItemType) :=
  lexMap.find? (fun e => keyMatches e.1 l)

/-- One `lexBase` round: collapse whitespace, dispatch on the fixed-token
table, then numbers, variables are handled by the table (`$`), text, end of
input, or an error item.  Returns the items emitted this round and `none`
when scanning halts (end of input or error). -/
def lexRound (l : LexState) : List Item × Option LexState :=
  -- Any leading whitespace is condensed to one item (emitted after
  -- `ignore()`, so its position is the position after the whitespace).
  let l2 := lexAcceptRun whitespaceChars l
  let (spaceItems, l3) :=
    if l2.pos > l2.start then
      let l3 : LexState := { l2 with start := l2.pos }
      ([mkItem itemSpace l3.start " "], l3)
    else ([], l2)
  match lexMapLookup l3 with
  | some (key, t) =>
    if t = itemVariable then
      let (items, l4) := lexVariable l3
      (spaceItems ++ items, some l4)
    else
      -- Each fixed-token state accepts exactly the key's characters (all
      -- present, since the key was matched as a prefix) and emits.
      let l4 : LexState := { l3 with pos := l3.pos + key.length }
      let (itm, l5) := lexThisItem t l4
      (spaceItems ++ [itm], some l5)
  | none =>
    -- `if l.accept("b") && l.accept(binary) { backup; backup; lexNumber }`
    let bTest : Bool :=
      match l3.rest with
      | c0 :: c1 :: _ => c0 = 'b' && binary.contains c1
      | _ => false
    if bTest then
      let (items, l4) := lexNumber l3
      (spaceItems ++ items, some l4)
    else if (lexAccept digits l3).1 then
      let (items, l4) := lexNumber l3
      (spaceItems ++ items, some l4)
    else if (lexAccept letters l3).1 then
      let (items, l4) := lexText l3
      (spaceItems ++ items, some l4)
    else if l3.pos = l3.input.length then
      -- `emit(itemEOF)`: note the value is the pending text `input[start:pos]`.
      let (itm, _) := lexThisItem itemEOF l3
      (spaceItems ++ [itm], none)
    else
      -- `errorf("Unexpected %c", l.next())`: consumes one character, emits
      -- an error item at the pending start position, and halts.
      let c := (l3.rest.headD ' ')
      (spaceItems ++
        [{ typ := itemError, pos := (l3.start : Int),
           val := "Unexpected " ++ String.mk [c], endP := (l3.start : Int) }],
       none)

/-- Iterates `lexRound`; each continuing round consumes at least one
character, so `input.length + 2` rounds always reach the end marker or an
error item. -/
def lexRun : Nat → LexState → List Item
  | 0, _ => []
  | f + 1, l =>
    match lexRound l with
    | (items, none) => items
    | (items, some l2) => items ++ lexRun f l2

/-- `lex`: the full ordered item sequence for an input line (the channel of
the source, materialised as a list). -/
def lex (input : String) : List Item :=
  lexRun (input.data.length + 2) { input := input.data, pos := 0, start := 0 }

/-! ## The parser (`parser.go`) -/

/-- The parser state: the consumed-item buffer `items`, the read position
`pos` into it (`peek` rewinds it), the open-parenthesis count, the remaining
lexer output (the channel), the input length (for end-marker positions) and
`lastLexerEnd`. -/
structure ParserState where
  items : List Item
  pos : Nat
  parenthesis : Nat
  stream : List Item
  inputLen : Nat
  lastLexerEnd : Int
deriving DecidableEq

/-- `parser.nextItem`, channel part: skip spaces; end-of-input yields `none`
(or the unclosed-parenthesis error); an error item aborts; any other item is
appended to the buffer and returned.  An exhausted stream (no end marker)
is `ErrorInternal`, as in the source's trailing return. -/
def nextFromStream (p : ParserState) : List Item → Except String (Option Item × ParserState)
  | [] => .error "internal error while parsing"
  | itm :: rest =>
    if itm.typ = itemSpace then nextFromStream p rest
    else if itm.typ = itemEOF then
      if p.parenthesis > 0 then
        .error "unexpected end of input, there are unclosed parenthesis"
      else .ok (none, { p with stream := rest })
    else if itm.typ = itemError then
      .error (itm.val ++ " at pos " ++ toString itm.pos)
    else
      .ok (some itm,
           { p with items := p.items ++ [itm], pos := p.pos + 1, stream := rest })

/-- `parser.nextItem`: a previously peeked item is re-served from the
buffer, else the next channel item is fetched. -/
def nextItem (p : ParserState) : Except String (Option Item × ParserState) :=
  if h : p.pos < p.items.length then
    .ok (some (p.items.get ⟨p.pos, h⟩), { p with pos := p.pos + 1 })
  else
    nextFromStream p p.stream

/-- `parser.peek`: `nextItem`, then back up so the item is served again. -/
def peek (p : ParserState) : Except String (Option Item × ParserState) :=
  match nextItem p with
  | .error e => .error e
  | .ok (itm, p2) => .ok (itm, { p2 with pos := p.pos })

/-- The measure that every `nextItem` consumption decreases: remaining
stream plus unread buffered items. -/
def mu (p : ParserState) : Nat := p.stream.length + (p.items.length - p.pos)

/-- The verbs' drain loop (`for { nextItem ... }` in the `clear`/`save`/
`load` branches): read until end of input or an error.  Fueled; `mu p + 1`
steps always suffice (each successful read decreases `mu`). -/
def drainItems : Nat → ParserState → Option (Except String ParserState)
  | 0, _ => none
  | f + 1, p =>
    match nextItem p with
    | .error e => some (.error e)
    | .ok (none, p2) => some (.ok p2)
    | .ok (some _, p2) => drainItems f p2

/-- Result of `readTokens`/`parse`: the node list and error, plus the
parser's final `lastLexerEnd` (used by `parse` for the parsing-stopped
marker); or an explicit Go run-time panic; or fuel exhaustion of the model
(never reached from `readTokens`'s own fuel). -/
inductive ParseOut
  | out (nodes : List Node) (err : Option String) (lastEnd : Int)
  | panicked (msg : String)
  | fuelOut
deriving DecidableEq

/-- One loop iteration's outcome: continue with updated state and nodes, or
return. -/
inductive StepOut
  | cont (p : ParserState) (nodes : List Node)
  | done (r : ParseOut)
deriving DecidableEq

/-! `readTokens` (`parser.go`) is one large loop; its body is transcribed
here branch for branch, each `item`-kind branch as its own definition (the
loop body itself is `readTokensStep`).  Go's unguarded
`nodes[len(nodes)-1]` and `nodes[0].(VariableNode)` accesses are modelled
by explicit `panicked` results on the (unreachable in real runs)
empty/mismatched cases. -/

/-- The end-of-input return of `readTokens`: check that the last node makes
sense, then append the end marker. -/
def stepEOF (p1 : ParserState) (nodes : List Node) : StepOut :=
  let err : Option String :=
    if p1.pos ≥ 1 then
      match nodes.getLast? with
      | some left =>
        if !IsNodeType left (ValueNodes ++ [NodeRParen]) then
          some "unexpected end of input"
        else none
      | none => none
    else none
  .done (.out (nodes ++ [newEOF (p1.inputLen : Int)]) err p1.lastLexerEnd)

/-- The `itemEquals` branch: `=` only as the 2nd thing on the line, after a
variable, which is rewritten into an assignment. -/
def stepEquals (itm : Item) (p1 : ParserState) (nodes : List Node) : StepOut :=
  let msg := "equals can only follow a variable name at the very start of the line. Ex: $foo = 1"
  if p1.pos ≠ 2 then .done (.out nodes (some msg) p1.lastLexerEnd)
  else
    match nodes with
    | [] => .done (.panicked "index out of range")
    | n0 :: restNodes =>
      if n0.type ≠ NodeVariable then .done (.out nodes (some msg) p1.lastLexerEnd)
      else
        match n0 with
        | variableN vpos vname =>
          .cont p1 (assignN (newAssign vpos vname) :: restNodes)
        | _ => .done (.panicked "interface conversion: Node is not VariableNode")

/-- The `itemVariable` branch. -/
def stepVariable (itm : Item) (p1 : ParserState) (nodes : List Node) : StepOut :=
  if p1.pos ≠ 1 then
    match nodes.getLast? with
    | none => .done (.panicked "index out of range")
    | some left =>
      let validLeftTypes := OperatorNodes ++ [NodeLParen, NodeAssign]
      let validLeftTypes :=
        if nodes.length = 1 then validLeftTypes ++ prefixNodes else validLeftTypes
      if !IsNodeType left validLeftTypes then
        .done (.out nodes
          (some ("unexpected " ++ itm.val ++ " at pos " ++ toString itm.pos ++
                 " following " ++ left.render)) p1.lastLexerEnd)
      else .cont p1 (nodes ++ [newVariable itm.pos itm.val])
  else .cont p1 (nodes ++ [newVariable itm.pos itm.val])

/-- The `itemDec`/`itemBin`/`itemOct`/`itemHex` branch: set output mode,
legal only as the first thing on the line. -/
def stepSetOutput (itm : Item) (p1 : ParserState) (nodes : List Node) : StepOut :=
  if p1.pos ≠ 1 then
    .done (.out nodes
      (some ("unexpected " ++ itm.val ++ " at pos " ++ toString itm.pos ++
             ", setting output type must be the first thing you do")) p1.lastLexerEnd)
  else .cont p1 (nodes ++ [setOutputN (newSetOutput itm.pos itm.val)])

/-- The shared tail of the operator branch (the code after the
negative-number detection): fuse the peeked item into a negative number, or
emit a binary operator. -/
def operatorFinish (itm : Item) (nodes : List Node) (pk? : Option Item)
    (p2 : ParserState) (isNeg : Bool) : StepOut :=
  match pk?, isNeg with
  | some pk, true =>
    -- Negative number: fuse `-` with the peeked literal.
    let value := "-" ++ pk.val
    let emit : StepOut :=
      .cont { p2 with pos := p2.pos + 1 }
        (nodes ++ [numberN (newNumber itm.pos value (parseNumberSystem pk.val))])
    if p2.pos ≠ 1 then
      match nodes.getLast? with
      | none => .done (.panicked "index out of range")
      | some left =>
        if !IsNodeType left (OperatorNodes ++ prefixNodes) then
          .done (.out nodes
            (some ("unexpected " ++ value ++ " at pos " ++ toString itm.pos ++
                   ", looks like a negative number that doesn't make sense here"))
            p2.lastLexerEnd)
        else emit
    else emit
  | _, _ =>
    -- An operator: needs a value or closing parenthesis on the left.
    if p2.pos = 1 then
      .done (.out nodes
        (some ("unexpected " ++ itm.val ++ " at pos " ++ toString itm.pos))
        p2.lastLexerEnd)
    else
      match nodes.getLast? with
      | none => .done (.panicked "index out of range")
      | some left =>
        if !IsNodeType left (ValueNodes ++ [NodeRParen]) then
          .done (.out nodes
            (some ("unexpected " ++ itm.val ++ " at pos " ++ toString itm.pos ++
                   ", operators should follow numbers, variables, or closing parenthesis"))
            p2.lastLexerEnd)
        else .cont p2 (nodes ++ [operatorN (newOperator itm.pos itm.val)])

/-- The operator-items branch, with the special handling of `-` for
negative numbers. -/
def stepOperator (itm : Item) (p1 : ParserState) (nodes : List Node) : StepOut :=
  if itm.typ = itemSub then
    if p1.pos = 1 then
      match peek p1 with
      | .error e => .done (.out nodes (some e) p1.lastLexerEnd)
      | .ok (pk?, p2) => operatorFinish itm nodes pk? p2 true
    else
      match nodes.getLast? with
      | none => .done (.panicked "index out of range")
      | some left =>
        if !IsNodeType left ValueNodes then
          match peek p1 with
          | .error e => .done (.out nodes (some e) p1.lastLexerEnd)
          | .ok (pk?, p2) =>
            let isNeg : Bool :=
              match pk? with
              | some pk =>
                pk.typ = itemNumber &&
                  (p2.pos = 1 || IsNodeType left (OperatorNodes ++ prefixNodes))
              | none => false
            operatorFinish itm nodes pk? p2 isNeg
        else operatorFinish itm nodes none p1 false
  else operatorFinish itm nodes none p1 false

/-- The `itemNumber` branch. -/
def stepNumber (itm : Item) (p1 : ParserState) (nodes : List Node) : StepOut :=
  if p1.pos ≠ 1 then
    match nodes.getLast? with
    | none => .done (.panicked "index out of range")
    | some left =>
      if !IsNodeType left (OperatorNodes ++ prefixNodes) then
        .done (.out nodes
          (some ("unexpected " ++ itm.val ++ " at pos " ++ toString itm.pos ++
                 ", looks like a negative number that doesn't make sense here"))
          p1.lastLexerEnd)
      else .cont p1 (nodes ++ [numberN (newNumber itm.pos itm.val (parseNumberSystem itm.val))])
  else .cont p1 (nodes ++ [numberN (newNumber itm.pos itm.val (parseNumberSystem itm.val))])

/-- The `itemClear` branch: drain the stream and demand exactly
`clear` `(` `)`, then terminate with the verb node and the end marker. -/
def stepClear (itm : Item) (p1 : ParserState) (nodes : List Node) : StepOut :=
  let invalidErr := "unexpected " ++ itm.val ++ " at pos " ++ toString itm.pos ++
    ", when used the input should be only: " ++ itm.val ++ "()"
  if p1.pos ≠ 1 then .done (.out nodes (some invalidErr) p1.lastLexerEnd)
  else
    match drainItems (mu p1 + 1) p1 with
    | none => .done .fuelOut
    | some (.error e) => .done (.out nodes (some e) p1.lastLexerEnd)
    | some (.ok p2) =>
      if p2.items.length ≠ 3 then .done (.out nodes (some invalidErr) p2.lastLexerEnd)
      else
        match p2.items with
        | [_, i1, i2] =>
          if i1.typ ≠ itemLParen ∨ i2.typ ≠ itemRParen then
            .done (.out nodes (some invalidErr) p2.lastLexerEnd)
          else
            .done (.out (nodes ++ [newClear itm.pos, newEOF (p2.inputLen : Int)])
              none p2.lastLexerEnd)
        | _ => .done (.panicked "index out of range")

/-- The `itemSave`/`itemLoad` branch: drain the stream and demand exactly
`save`/`load` `(` `<text>` `)`, then terminate with the verb node and the
end marker. -/
def stepSaveLoad (itm : Item) (p1 : ParserState) (nodes : List Node) : StepOut :=
  let invalidErr := "unexpected " ++ itm.val ++ " at pos " ++ toString itm.pos ++
    ", when used the input should be only: " ++ itm.val ++ "(name)"
  if p1.pos ≠ 1 then .done (.out nodes (some invalidErr) p1.lastLexerEnd)
  else
    match drainItems (mu p1 + 1) p1 with
    | none => .done .fuelOut
    | some (.error e) => .done (.out nodes (some e) p1.lastLexerEnd)
    | some (.ok p2) =>
      if p2.items.length ≠ 4 then .done (.out nodes (some invalidErr) p2.lastLexerEnd)
      else
        match p2.items with
        | [_, i1, i2, i3] =>
          if i1.typ ≠ itemLParen ∨ i2.typ ≠ itemText ∨ i3.typ ≠ itemRParen then
            .done (.out nodes (some invalidErr) p2.lastLexerEnd)
          else
            .done (.out (nodes ++
              [diskOperationN (newDiskOperation itm.pos itm.val i2.val),
               newEOF (p2.inputLen : Int)]) none p2.lastLexerEnd)
        | _ => .done (.panicked "index out of range")

/-- The `itemLParen` branch. -/
def stepLParen (itm : Item) (p1 : ParserState) (nodes : List Node) : StepOut :=
  if p1.pos ≠ 1 ∧ nodes ≠ [] then
    match nodes.getLast? with
    | none => .done (.panicked "index out of range")
    | some left =>
      let validLeftTypes := OperatorNodes ++ prefixNodes ++ [NodeAbs]
      if !IsNodeType left validLeftTypes then
        .done (.out nodes
          (some ("unexpected ( at pos " ++ toString itm.pos ++
                 ", should be following abs, dec, hex, bin, oct, =, operators, or other (s"))
          p1.lastLexerEnd)
      else .cont { p1 with parenthesis := p1.parenthesis + 1 } (nodes ++ [newLParen itm.pos])
  else .cont { p1 with parenthesis := p1.parenthesis + 1 } (nodes ++ [newLParen itm.pos])

/-- The `itemRParen` branch. -/
def stepRParen (itm : Item) (p1 : ParserState) (nodes : List Node) : StepOut :=
  if p1.parenthesis = 0 then
    .done (.out nodes
      (some ("unexpected ) at pos " ++ toString itm.pos ++ ", no parenthesis open"))
      p1.lastLexerEnd)
  else
    match nodes.getLast? with
    | none => .done (.panicked "index out of range")
    | some left =>
      if !IsNodeType left (ValueNodes ++ [NodeRParen]) then
        .done (.out nodes
          (some ("unexpected ) at pos " ++ toString itm.pos ++
                 ", should be following numbers, variables, or other )s"))
          p1.lastLexerEnd)
      else .cont { p1 with parenthesis := p1.parenthesis - 1 } (nodes ++ [newRParen itm.pos])

/-- The `itemAbs` branch. -/
def stepAbs (itm : Item) (p1 : ParserState) (nodes : List Node) : StepOut :=
  if p1.pos ≠ 1 then
    match nodes.getLast? with
    | none => .done (.panicked "index out of range")
    | some left =>
      if !IsNodeType left (OperatorNodes ++ prefixNodes) then
        .done (.out nodes
          (some ("unexpected abs() at pos " ++ toString itm.pos ++
                 ", may follow operators, (, or =")) p1.lastLexerEnd)
      else .cont p1 (nodes ++ [newAbs itm.pos])
  else .cont p1 (nodes ++ [newAbs itm.pos])

/-- One iteration of the `readTokens` loop: fetch the next item and
dispatch on its kind (`itemText` and the unreachable default both error,
appending an end marker first). -/
def readTokensStep (p : ParserState) (nodes : List Node) : StepOut :=
  match nextItem p with
  | .error e => .done (.out nodes (some e) p.lastLexerEnd)
  | .ok (none, p1) => stepEOF p1 nodes
  | .ok (some itm, p0) =>
    let p1 : ParserState := { p0 with lastLexerEnd := itm.endP }
    if itm.typ = itemEquals then stepEquals itm p1 nodes
    else if itm.typ = itemVariable then stepVariable itm p1 nodes
    else if isItemType itm [itemDec, itemBin, itemOct, itemHex] then stepSetOutput itm p1 nodes
    else if isItemType itm operatorItems then stepOperator itm p1 nodes
    else if itm.typ = itemNumber then stepNumber itm p1 nodes
    else if itm.typ = itemClear then stepClear itm p1 nodes
    else if isItemType itm [itemSave, itemLoad] then stepSaveLoad itm p1 nodes
    else if itm.typ = itemLParen then stepLParen itm p1 nodes
    else if itm.typ = itemRParen then stepRParen itm p1 nodes
    else if itm.typ = itemAbs then stepAbs itm p1 nodes
    else
      .done (.out (nodes ++ [newEOF (p1.inputLen : Int)])
        (some ("unexpected " ++ itm.val ++ " at pos " ++ toString itm.pos)) p1.lastLexerEnd)

/-- The `readTokens` loop: iterate `readTokensStep`. -/
def readTokensLoop : Nat → ParserState → List Node → ParseOut
  | 0, _, _ => .fuelOut
  | f + 1, p, nodes =>
    match readTokensStep p nodes with
    | .done r => r
    | .cont p2 nodes2 => readTokensLoop f p2 nodes2

/-- `readTokens` on a lexer stream: every iteration consumes at least one
stream or buffered item, so `stream.length + 2` iterations always reach a
return. -/
def readTokens (stream : List Item) (inputLen : Nat) : ParseOut :=
  readTokensLoop (stream.length + 2)
    { items := [], pos := 0, parenthesis := 0, stream := stream,
      inputLen := inputLen, lastLexerEnd := 0 } []

/-- `Parse` (via `parser.parse`): lex, read tokens, and append the
parsing-stopped marker on error or when the last node is not the end
marker. -/
def Parse (input : String) : ParseOut :=
  match readTokens (lex input) input.length with
  | .out nodes err lastEnd =>
    let lastType : Option NodeType := (nodes.getLast?).map Node.type
    match err with
    | some e => .out (nodes ++ [newParsingStopped lastEnd]) (some e) lastEnd
    | none =>
      if lastType = some NodeEOF then .out nodes none lastEnd
      else .out (nodes ++ [newParsingStopped lastEnd]) none lastEnd
  | r => r

/-! ## Numeric helpers

Go `float64` is modelled by `ℚ`.  Each helper documents which standard
library call it models and on which inputs the model is exact; no theorem
below depends on the inexact corners (non-integer exponents, division by
zero, int64 overflow, shortest-round-trip formatting of non-terminating
decimals). -/

/-- Value of one (hexadecimal) digit character. -/
def digitValue (c : Char) : Option Nat :=
  if '0' ≤ c ∧ c ≤ '9' then some (c.toNat - 48)
  else if 'a' ≤ c ∧ c ≤ 'f' then some (c.toNat - 87)
  else if 'A' ≤ c ∧ c ≤ 'F' then some (c.toNat - 55)
  else none

/-- Accumulating digit-string value in the given base. -/
def digitsValGo (base : Nat) (acc : Nat) : List Char → Option Nat
  | [] => some acc
  | c :: cs =>
    match digitValue c with
    | some d => if d < base then digitsValGo base (acc * base + d) cs else none
    | none => none

/-- Value of a nonempty digit string in the given base. -/
def digitsVal (base : Nat) (cs : List Char) : Option Nat :=
  if cs.isEmpty then none else digitsValGo base 0 cs

/-- Models `strconv.ParseInt(s, 0, 64)` (base detection from the prefix:
`0x`/`0X` hex, `0b`/`0B` binary, `0o`/`0O` octal, leading `0` octal, else
decimal), exact except for digit-group underscores and the int64 range
limit, neither of which this program can produce. -/
def parseIntQ (s : String) : Except String ℚ :=
  let errMsg := "strconv.ParseInt: parsing \"" ++ s ++ "\": invalid syntax"
  let cs := s.data
  let signed : Bool × List Char :=
    match cs with
    | '-' :: t => (true, t)
    | '+' :: t => (false, t)
    | _ => (false, cs)
  let val? : Option Nat :=
    match signed.2 with
    | '0' :: 'x' :: t => digitsVal 16 t
    | '0' :: 'X' :: t => digitsVal 16 t
    | '0' :: 'b' :: t => digitsVal 2 t
    | '0' :: 'B' :: t => digitsVal 2 t
    | '0' :: 'o' :: t => digitsVal 8 t
    | '0' :: 'O' :: t => digitsVal 8 t
    | ['0'] => some 0
    | '0' :: t => digitsVal 8 t
    | t => digitsVal 10 t
  match val? with
  | none => .error errMsg
  | some v => .ok (if signed.1 then -(v : ℚ) else (v : ℚ))

/-- Digit-list value in base 10, empty list counting as 0. -/
def decDigitsVal (cs : List Char) : Nat :=
  cs.foldl (fun a c => a * 10 + (c.toNat - 48)) 0

/-- Models `strconv.ParseFloat(s, 64)` on the plain decimal shapes this
program produces (optional sign, digits, at most one decimal point);
exponent and hex-float forms are never produced here and are rejected. -/
def parseFloatQ (s : String) : Except String ℚ :=
  let errMsg := "strconv.ParseFloat: parsing \"" ++ s ++ "\": invalid syntax"
  let cs := s.data
  let signed : Bool × List Char :=
    match cs with
    | '-' :: t => (true, t)
    | '+' :: t => (false, t)
    | _ => (false, cs)
  let ip := signed.2.takeWhile Char.isDigit
  let restCs := signed.2.dropWhile Char.isDigit
  let val? : Option ℚ :=
    match restCs with
    | [] => if ip.isEmpty then none else some ((decDigitsVal ip : ℚ))
    | '.' :: fp =>
      if fp.all Char.isDigit ∧ (¬ip.isEmpty ∨ ¬fp.isEmpty) then
        some ((decDigitsVal ip : ℚ) + (decDigitsVal fp : ℚ) / ((10 : ℚ) ^ fp.length))
      else none
    | _ => none
  match val? with
  | none => .error errMsg
  | some v => .ok (if signed.1 then -v else v)

/-- Truncation toward zero, modelling Go `float64`-to-`int64` conversion
and `math.Trunc` (int64 overflow not modelled; unreachable below). -/
def ratTrunc (q : ℚ) : ℤ := if q < 0 then -(⌊-q⌋) else ⌊q⌋

/-- Models `math.Pow` on integer exponents (the only exponents any theorem
below touches); non-integer exponents yield an unspecified value (0). -/
def mathPow (l r : ℚ) : ℚ :=
  if r.den = 1 then
    if 0 ≤ r.num then l ^ r.num.toNat
    else if l = 0 then 0 else (l ^ (-r.num).toNat)⁻¹
  else 0

/-- Models `math.Mod` (result has the sign of the dividend); `math.Mod`
with zero divisor is NaN, modelled as 0 (unreachable below). -/
def mathMod (l r : ℚ) : ℚ :=
  if r = 0 then 0 else l - ((ratTrunc (l / r) : ℤ) : ℚ) * r

/-- Models `float64(int64(l) << int64(r))`; a negative shift count panics
in Go and is clamped to 0 here (unreachable below). -/
def shiftLeftF (l r : ℚ) : ℚ := (((ratTrunc l) * 2 ^ (ratTrunc r).toNat : ℤ) : ℚ)

/-- Models `float64(int64(l) >> int64(r))` (arithmetic shift = floor
division by a power of two); negative shift counts as for `shiftLeftF`. -/
def shiftRightF (l r : ℚ) : ℚ := ((Int.fdiv (ratTrunc l) (2 ^ (ratTrunc r).toNat) : ℤ) : ℚ)

/-- Strips the factor `p` from `n`, returning the multiplicity and the
remaining cofactor (fueled; `n` itself is always enough fuel). -/
def stripFactor : Nat → Nat → Nat → Nat × Nat
  | 0, _, n => (0, n)
  | f + 1, p, n =>
    if n ≠ 0 ∧ 2 ≤ p ∧ n % p = 0 then
      let r := stripFactor f p (n / p)
      (r.1 + 1, r.2)
    else (0, n)

/-- Renders the integer `n` with a decimal point `k` digits from the
right. -/
def renderScaled (n : Int) (k : Nat) : String :=
  let ds := (toString n.natAbs).data
  let ds := if ds.length ≤ k then List.replicate (k + 1 - ds.length) '0' ++ ds else ds
  let signPart : List Char := if n < 0 then ['-'] else []
  if k = 0 then String.mk (signPart ++ ds)
  else String.mk (signPart ++ ds.take (ds.length - k) ++ ['.'] ++ ds.drop (ds.length - k))

/-- Models `strconv.FormatFloat(x, 'f', -1, 64)`: exact for rationals with
a terminating decimal expansion (the only values any theorem below
formats); other values are truncated to 17 decimals. -/
def formatFloat (q : ℚ) : String :=
  let den := q.den
  let r2 := stripFactor den 2 den
  let r5 := stripFactor r2.2 5 r2.2
  if r5.2 = 1 then
    let k := max r2.1 r5.1
    renderScaled (q.num * ((10 ^ k : ℕ) : ℤ) / (den : ℤ)) k
  else
    renderScaled (ratTrunc (q * ((10 ^ 17 : ℕ) : ℚ))) 17

/-- `NumberNode.toFloat64`: decimal text parsed as a float, hex/octal as
base-detected integers, binary by prefixing a zero (making `b001` parse as
the Go literal `0b001`). -/
def NumberNode.toFloat64 (nn : NumberNode) : Except String ℚ :=
  if nn.system = .Dec then parseFloatQ nn.value
  else if nn.system = .Oct ∨ nn.system = .Hex then parseIntQ nn.value
  else parseIntQ ("0" ++ nn.value)

/-! ## The evaluator (`exec.go`) -/

/-- The variable store (`map[string]NumberNode`), as an association list. -/
abbrev VarMap := List (String × NumberNode)

/-- Map lookup. -/
def varGet (m : VarMap) (k : String) : Option NumberNode :=
  (m.find? (fun e => e.1 == k)).map (fun e => e.2)

/-- Map insert/update. -/
def varSet : VarMap → String → NumberNode → VarMap
  | [], k, v => [(k, v)]
  | (k0, v0) :: rest, k, v =>
    if k0 = k then (k, v) :: rest else (k0, v0) :: varSet rest k v

/-- `ZappacState`: the evaluator's persistent state (the `OnSave` callback
field has no observable effect on anything modelled here). -/
structure ZappacState where
  Variables : VarMap
deriving DecidableEq

/-- `ZappacState.clear`: wipe the variable store. -/
def ZappacState.clear (zs : ZappacState) : ZappacState := { zs with Variables := [] }

/-- The external persistence collaborator: `StoragePath` and the standard
library calls (`os.ReadFile`, `yaml.Unmarshal`, `yaml.Marshal`,
`os.MkdirAll`, `os.WriteFile`) that `load`/`save` make, abstracted as an
oracle (each `Except.error` carries the Go error's `Error()` text). -/
structure PersistEnv where
  storagePath : String
  readFile : String → Except String String
  unmarshal : String → Except String VarMap
  marshal : VarMap → Except String String
  mkdirAll : Except String Unit
  writeFile : String → String → Except String Unit

/-- `getProfileFile` (Go formats `%s/%s.json`). -/
def getProfileFile (env : PersistEnv) (profile : String) : String :=
  env.storagePath ++ "/" ++ profile ++ ".json"

/-- `ZappacState.load`: read and unmarshal a profile; any failure's raw
error text becomes the returned message and the store is untouched. -/
def load (env : PersistEnv) (zs : ZappacState) (profile : String) : String × ZappacState :=
  match env.readFile (getProfileFile env profile) with
  | .error e => (e, zs)
  | .ok contents =>
    match env.unmarshal contents with
    | .error e => (e, zs)
    | .ok vars => ("Loaded " ++ profile, { zs with Variables := vars })

/-- `ZappacState.save`: marshal the store and write the profile file; any
failure's raw error text becomes the returned message.  The store is never
mutated (`OnSave` is an external callback). -/
def save (env : PersistEnv) (zs : ZappacState) (profile : String) : String :=
  match env.marshal zs.Variables with
  | .error e => e
  | .ok contents =>
    match env.mkdirAll with
    | .error e => e
    | .ok _ =>
      match env.writeFile (getProfileFile env profile) contents with
      | .error e => e
      | .ok _ => "Saved " ++ profile

/-- `findNext`: index of the first node of one of the given types. -/
def findNext (nodes : List Node) (types : List NodeType) : Option Nat :=
  nodes.findIdx? (fun n => IsNodeType n types)

/-- The scan of `findClosing`, carrying the depth counter (a Go `int`; the
zero test happens after each update). -/
def findClosingGo : List Node → Int → Nat → Option Nat
  | [], _, _ => none
  | n :: rest, parenthesis, idx =>
    let parenthesis :=
      if n.type = NodeLParen then parenthesis + 1
      else if n.type = NodeRParen then parenthesis - 1
      else parenthesis
    if parenthesis = 0 then some idx else findClosingGo rest parenthesis (idx + 1)

/-- `findClosing`: find the closing parenthesis for the leading `LParen`
(`none` models Go's -1). -/
def findClosing (nodes : List Node) : Option Nat := findClosingGo nodes 0 0

/-- `replace`: splice `rep` over positions `start..endI` of the node
list. -/
def replace (nodes : List Node) (start endI : Nat) (rep : Node) : List Node :=
  nodes.take start ++ [rep] ++ nodes.drop (endI + 1)

/-- `ZappacState.readValue`: dereference a variable (unknown names error)
or use a number directly.  A failed Go two-value type assertion yields the
zero value, as in the source. -/
def readValue (zs : ZappacState) (node : Node) : Except String NumberNode :=
  if node.type = NodeVariable then
    let name := match node with | variableN _ n => n | _ => ""
    match varGet zs.Variables name with
    | none => .error ("unknown variable " ++ name)
    | some val => .ok val
  else
    .ok (match node with | numberN n => n | _ => zeroNumberNode)

/-- The arithmetic dispatch of `ZappacState.calculate` (exec.go lines
157-187), factored out of `calculate` verbatim: one case per operator node
type, in source order; `none` models the fall-through to the
unknown-operation error.  Note `NodeAnd`, `NodeOr`, `NodeXor` and `NodeInv`
all compute `l - r`, exactly as `NodeSub` does. -/
def calculateOp (opType : NodeType) (l r : ℚ) : Option ℚ :=
  if opType = NodeAdd then some (l + r)
  else if opType = NodeSub then some (l - r)
  else if opType = NodeMult then some (l * r)
  else if opType = NodeExp then some (mathPow l r)
  else if opType = NodeDiv then some (l / r)  -- ±Inf/NaN on r = 0 in Go; unreachable below
  else if opType = NodeFdiv then some ((⌊l / r⌋ : ℤ) : ℚ)
  else if opType = NodeAnd then some (l - r)
  else if opType = NodeOr then some (l - r)
  else if opType = NodeXor then some (l - r)
  else if opType = NodeInv then some (l - r)
  else if opType = NodeMod then some (mathMod l r)
  else if opType = NodeLShift then some (shiftLeftF l r)
  else if opType = NodeRShift then some (shiftRightF l r)
  else none

/-- `ZappacState.calculate`: read both operand values, convert to numbers,
apply the operator dispatch, and format the result as a new decimal
number node. -/
def calculate (zs : ZappacState) (left : Node) (op : OperatorNode) (right : Node) :
    Except String NumberNode :=
  match readValue zs left with
  | .error e => .error e
  | .ok leftNum =>
    match leftNum.toFloat64 with
    | .error e => .error e
    | .ok l =>
      match readValue zs right with
      | .error e => .error e
      | .ok rightNum =>
        match rightNum.toFloat64 with
        | .error e => .error e
        | .ok r =>
          match calculateOp op.typ l r with
          | none => .error ("unknown operation " ++ op.operator)
          | some result => .ok (newNumber (-1) (formatFloat result) .Dec)

/-- Result of `calculateNodes`: new node list, evaluation error, or an
explicit index-out-of-range panic (Go indexes `operatorPos ± 1`
unguarded). -/
inductive CalcOut
  | okNodes (nodes : List Node)
  | errE (e : String)
  | panicked (m : String)
deriving DecidableEq

/-- `ZappacState.calculateNodes`: reduce the operator at `operatorPos` with
its immediate neighbours and splice the result in. -/
def calculateNodes (zs : ZappacState) (nodes : List Node) (operatorPos : Nat) : CalcOut :=
  match nodes.get? operatorPos with
  | none => .panicked "index out of range"
  | some opNode =>
    let op := match opNode with | operatorN o => o | _ => zeroOperatorNode
    if operatorPos = 0 then .panicked "index out of range"
    else
      match nodes.get? (operatorPos - 1), nodes.get? (operatorPos + 1) with
      | some leftN, some rightN =>
        match calculate zs leftN op rightN with
        | .error e => .errE e
        | .ok value => .okNodes (replace nodes (operatorPos - 1) (operatorPos + 1) (numberN value))
      | _, _ => .panicked "index out of range"

/-- Result of `pemdas`: `(output, err)`, an explicit Go run-time panic, or
fuel exhaustion of the model. -/
inductive PemdasResult
  | ret (output : String) (err : Option String)
  | panicked (m : String)
  | fuelOut
deriving DecidableEq

/-- `ZappacState.pemdas`: iterative leftmost reduction — parentheses and
exponents, then the multiplicative tier, then the additive tier, then the
end-marker cut; a lone remaining node renders as the output, anything else
is the `"ERROR"` return.  Each iteration consumes one unit of fuel;
recursion into a parenthesis group reuses the same fuel. -/
def pemdas : Nat → ZappacState → List Node → PemdasResult
  | 0, _, _ => .fuelOut
  | f + 1, zs, nodes =>
    match nodes with
    | [n] => .ret n.render none
    | _ =>
      match findNext nodes [NodeLParen, NodeExp] with
      | some next =>
        match nodes.get? next with
        | none => .panicked "index out of range"
        | some node =>
          if node.type = NodeLParen then
            -- Need to find the closing parenthesis.  Go computes
            -- `closing := next + findClosing(nodes[next:])`; on a missing
            -- closing parenthesis (-1) the slice below panics.
            match findClosing (nodes.drop next) with
            | none => .panicked "slice bounds out of range"
            | some c =>
              let closing := next + c
              match pemdas f zs ((nodes.drop (next + 1)).take (closing - (next + 1))) with
              | .fuelOut => .fuelOut
              | .panicked m => .panicked m
              | .ret result innerErr =>
                match innerErr with
                | some e => .ret "" (some e)
                | none =>
                  pemdas f zs (replace nodes next closing (numberN (newNumber (-1) result .Dec)))
          else
            match calculateNodes zs nodes next with
            | .errE e => .ret "" (some e)
            | .panicked m => .panicked m
            | .okNodes nodes2 => pemdas f zs nodes2
      | none =>
        match findNext nodes [NodeMult, NodeDiv, NodeFdiv, NodeMod, NodeAnd, NodeOr,
                              NodeXor, NodeInv, NodeLShift, NodeRShift] with
        | some next =>
          match calculateNodes zs nodes next with
          | .errE e => .ret "" (some e)
          | .panicked m => .panicked m
          | .okNodes nodes2 => pemdas f zs nodes2
        | none =>
          match findNext nodes [NodeAdd, NodeSub] with
          | some next =>
            match calculateNodes zs nodes next with
            | .errE e => .ret "" (some e)
            | .panicked m => .panicked m
            | .okNodes nodes2 => pemdas f zs nodes2
          | none =>
            -- Cut out EOF cleanly (`nodes[1]` is an unguarded index).
            match nodes with
            | n0 :: n1 :: _ =>
              if n1.type = NodeEOF then pemdas f zs [n0]
              else .ret "ERROR" none
            | _ => .panicked "index out of range"

/-- Result of `Exec`: `(output, err)` plus the resulting state, an explicit
Go run-time panic, or fuel exhaustion of the model. -/
inductive ExecResult
  | ret (output : String) (err : Option String) (zs : ZappacState)
  | panicked (m : String)
  | fuelOut
deriving DecidableEq

/-- The tail of `Exec` shared by the `SetOutput`, `Assign` and plain paths:
run `pemdas`; on success the requested output radix is NOT applied (the
source's unimplemented `TODO: Convert`), and the assignment target, when
set, is committed. -/
def execPemdas (fuel : Nat) (zs : ZappacState) (nodes : List Node)
    (outputSystem : NumberSystem) (targetVariable : String) : ExecResult :=
  match pemdas fuel zs nodes with
  | .fuelOut => .fuelOut
  | .panicked m => .panicked m
  | .ret result err =>
    match err with
    | none =>
      -- `if outputSystem != Dec { /* TODO: Convert */ _ = outputSystem }`
      let _ := outputSystem
      let newVars :=
        varSet zs.Variables targetVariable
          (newNumber (-1) result (parseNumberSystem result))
      let zs2 := if targetVariable ≠ "" then { zs with Variables := newVars } else zs
      .ret result none zs2
    | some e => .ret result (some e) zs

/-- `ZappacState.Exec`: strip and interpret a single optional leading
control node (`SetOutput`, `Assign`, `Clear`, `Save`, `Load`), then reduce
the rest with `pemdas`. -/
def Exec (env : PersistEnv) (fuel : Nat) (zs : ZappacState) (nodes : List Node)
    (updateVariables : Bool) : ExecResult :=
  match nodes with
  | [] => .ret "" none zs
  | n0 :: restNodes =>
    let firstType := n0.type
    if firstType = NodeSetOutput then
      let so := match n0 with | setOutputN s => s | _ => zeroSetOutputNode
      execPemdas fuel zs restNodes so.output ""
    else if firstType = NodeAssign then
      let a := match n0 with | assignN x => x | _ => zeroAssignNode
      execPemdas fuel zs restNodes .Dec (if updateVariables then a.target else "")
    else if firstType = NodeClear then
      .ret "Cleared state" none zs.clear
    else if firstType = NodeSave then
      let d := match n0 with | diskOperationN x => x | _ => zeroDiskOperationNode
      .ret (save env zs d.profile) none zs
    else if firstType = NodeLoad then
      let d := match n0 with | diskOperationN x => x | _ => zeroDiskOperationNode
      let r := load env zs d.profile
      .ret r.1 none r.2
    else execPemdas fuel zs nodes .Dec ""

/-! ## Statement helpers

Small, purely mathematical gadgets used only to state the theorems below
(they model nothing from the source). -/

/-- Number of nodes of the given type. -/
def countType (nodes : List Node) (t : NodeType) : Nat :=
  (nodes.filter (fun n => n.type = t)).length

/-- A node whose (`NumberNode`) payload stores its text already
lowercased. -/
def NodeLowercased (n : Node) : Prop :=
  ∀ nn : NumberNode, n = numberN nn → strToLower nn.value = nn.value

/-- The shape of the item stream a verb's drain loop consumes: the nonspace
items before the end marker, or the first error item's message, or an
unterminated stream. -/
inductive DrainShape
  | okUpTo (consumed : List Item)
  | errAt (msg : String)
  | exhausted
deriving DecidableEq

/-- Classifies an item stream as the drain loop sees it. -/
def drainShape : List Item → DrainShape
  | [] => .exhausted
  | itm :: rest =>
    if itm.typ = itemSpace then drainShape rest
    else if itm.typ = itemEOF then .okUpTo []
    else if itm.typ = itemError then .errAt (itm.val ++ " at pos " ++ toString itm.pos)
    else
      match drainShape rest with
      | .okUpTo l => .okUpTo (itm :: l)
      | r => r

/-- A concrete persistence oracle for the closed evaluations below: reads
fail (no profile file), writes succeed. -/
def testEnv : PersistEnv :=
  { storagePath := "/tmp/zappac"
  , readFile := fun fp => .error ("open " ++ fp ++ ": no such file or directory")
  , unmarshal := fun _ => .ok []
  , marshal := fun _ => .ok "variables:"
  , mkdirAll := .ok ()
  , writeFile := fun _ _ => .ok () }

/-- The empty evaluator state. -/
def emptyState : ZappacState := { Variables := [] }

/-- The invariant carried by the `readTokens` loop for the parenthesis
balance: the open-parenthesis counter matches the surplus of emitted
opening parentheses, and nothing has been emitted before the first item. -/
def ParenInv (p : ParserState) (nodes : List Node) : Prop :=
  countType nodes NodeLParen = countType nodes NodeRParen + p.parenthesis ∧
  (p.pos = 0 → nodes = [] ∧ p.parenthesis = 0)

/-- The invariant carried by the `readTokens` loop for C10: every emitted
number node stores a lowercased value. -/
def LowerInv (nodes : List Node) : Prop := ∀ n ∈ nodes, NodeLowercased n

/-- The result-shape predicate shared by the balance lemmas: continuing
preserves the invariant, a successful return is balanced. -/
def BalanceOut (r : StepOut) : Prop :=
  match r with
  | StepOut.cont p2 nodes2 => ParenInv p2 nodes2
  | StepOut.done (ParseOut.out ns none _) =>
      countType ns NodeLParen = countType ns NodeRParen
  | _ => True

/-- The step-result predicate for C10: every emitted node list keeps only
lowercased number values. -/
def LowerOutP (r : StepOut) : Prop :=
  match r with
  | StepOut.cont _ nodes2 => LowerInv nodes2
  | StepOut.done (ParseOut.out ns _ _) => LowerInv ns
  | _ => True

/-- The exact drained-buffer shape `clear` `(` `)` the clear verb demands:
any verb item followed by an opening and a closing parenthesis. -/
def clearShapeB (items : List Item) : Bool :=
  match items with
  | [_, i1, i2] => i1.typ = itemLParen && i2.typ = itemRParen
  | _ => false

/-- The exact drained-buffer shape `save`/`load` `(` `<text>` `)` the disk
verbs demand. -/
def saveLoadShapeB (items : List Item) : Bool :=
  match items with
  | [_, i1, i2, i3] =>
    i1.typ = itemLParen && i2.typ = itemText && i3.typ = itemRParen
  | _ => false

/-! ## Basic lemmas -/

/-- `Char.ofNat` round-trips on valid codepoints. -/
theorem toNat_charOfNat (n : Nat) (h : n.isValidChar) : (Char.ofNat n).toNat = n := by
  unfold Char.ofNat
  rw [dif_pos h]
  rfl

/-- `charToLower` is idempotent. -/
theorem charToLower_idem (c : Char) : charToLower (charToLower c) = charToLower c := by
  unfold charToLower
  by_cases h : 65 ≤ c.toNat ∧ c.toNat ≤ 90
  · rw [if_pos h]
    have hv : (c.toNat + 32).isValidChar := Or.inl (by omega)
    have ht : (Char.ofNat (c.toNat + 32)).toNat = c.toNat + 32 := toNat_charOfNat _ hv
    rw [if_neg (by rw [ht]; omega)]
  · rw [if_neg h, if_neg h]

/-- `strToLower` is idempotent. -/
theorem strToLower_idem (s : String) : strToLower (strToLower s) = strToLower s := by
  have key : ∀ l : List Char, (l.map charToLower).map charToLower = l.map charToLower := by
    intro l
    induction l with
    | nil => rfl
    | cons c cs ih => simp [charToLower_idem, ih]
  exact congrArg String.mk (key s.data)

/-- Every node built by `newNumber` stores a lowercased value. -/
theorem newNumber_value_lowered (pos : Int) (v : String) (sys : NumberSystem) :
    strToLower (newNumber pos v sys).value = (newNumber pos v sys).value :=
  strToLower_idem v

/-! ## The claims -/

/-- C3: for every pair of operand values, the evaluator's reduction of the
bitwise operators `&` (AND), `|` (OR), `^` (XOR) and `~` (NOT) produces
exactly the value `l - r` — each of the four is arithmetically the same
operation as subtraction (`calculateOp NodeSub`). -/
theorem C3_bitwise_ops_reduce_as_subtraction (l r : ℚ) :
    calculateOp NodeAnd l r = some (l - r) ∧
    calculateOp NodeOr l r = some (l - r) ∧
    calculateOp NodeXor l r = some (l - r) ∧
    calculateOp NodeInv l r = some (l - r) ∧
    calculateOp NodeSub l r = some (l - r) :=
  ⟨rfl, rfl, rfl, rfl, rfl⟩

/-- C5, counterexample: the literal `01.5` — produced by the lexer as one
number item — starts with `0`, has length > 1 and contains a `.`, so the
claim classifies it as decimal; `parseNumberSystem` classifies it as octal
(only the *second* character is inspected for `.`/`x`). -/
theorem C5_counterexample_dot_after_second_char :
    (lex "01.5").map (fun i => (i.typ, i.val)) = [(itemNumber, "01.5"), (itemEOF, "")] ∧
    ("01.5".data.contains '.') = true ∧
    parseNumberSystem "01.5" = .Oct ∧
    parseNumberSystem "01.5" ≠ .Dec :=
  ⟨rfl, rfl, rfl, by decide⟩

/-- C5, amended: for every nonempty number literal the detected radix is:
hex when the literal starts with `0x` or `0X`; binary when it starts with
`b` or `B`; octal when it starts with `0`, has length greater than 1, and
its *second character* is none of `x`, `X`, `.`; and decimal otherwise (so
a literal whose decimal point immediately follows the leading zero is
decimal, but a `.` appearing any later does not prevent the octal
classification). -/
theorem C5_amended_radix_classification (s : String) (c0 : Char) (tail : List Char)
    (h : s.data = c0 :: tail) :
    (parseNumberSystem s = .Bin ↔ (c0 = 'b' ∨ c0 = 'B')) ∧
    (parseNumberSystem s = .Hex ↔
      (c0 = '0' ∧ ∃ c1 t, tail = c1 :: t ∧ (c1 = 'x' ∨ c1 = 'X'))) ∧
    (parseNumberSystem s = .Oct ↔
      (c0 = '0' ∧ ∃ c1 t, tail = c1 :: t ∧ ¬(c1 = 'x' ∨ c1 = 'X' ∨ c1 = '.'))) ∧
    (parseNumberSystem s = .Dec ↔
      (¬(c0 = 'b' ∨ c0 = 'B') ∧ (c0 = '0' → (tail = [] ∨ ∃ t, tail = '.' :: t)))) := by
  unfold parseNumberSystem
  rw [h]
  rcases tail with _ | ⟨c1, t⟩ <;>
    by_cases hb : c0 = 'b' ∨ c0 = 'B' <;>
    by_cases h0 : c0 = '0' <;>
    simp_all <;>
    by_cases hx : c1 = 'x' ∨ c1 = 'X' <;>
    by_cases hd : c1 = '.' <;>
    simp_all <;>
    tauto

/-- C5, witness for the amended classification, at the literals `0755`
(octal despite no `x`-check beyond the second character), `0.5` (decimal)
and `0x7f` (hex). -/
theorem C5_amended_radix_classification_witness :
    parseNumberSystem "0755" = .Oct ∧
    parseNumberSystem "0.5" = .Dec ∧
    parseNumberSystem "0x7f" = .Hex := by
  refine ⟨?_, ?_, ?_⟩
  · exact (C5_amended_radix_classification "0755" '0' "755".data rfl).2.2.1.mpr
      ⟨rfl, '7', "55".data, rfl, by decide⟩
  · exact (C5_amended_radix_classification "0.5" '0' ".5".data rfl).2.2.2.mpr
      ⟨by decide, fun _ => Or.inr ⟨"5".data, rfl⟩⟩
  · exact (C5_amended_radix_classification "0x7f" '0' "x7f".data rfl).2.1.mpr
      ⟨rfl, 'x', "7f".data, rfl, Or.inl rfl⟩

/-- C1: the claim says a line whose first node is a `SetOutput` node yields
a result in the requested radix (`hex(255)` → `"0xff"`); the code never
applies the requested radix (`Exec`'s conversion is an unimplemented
`TODO`), returning the decimal rendering `"255"` — contradicting the
repository's own test expectation (`exec_test.go`: `{"hex(255)", "0xff"}`).
This theorem evaluates the embedded code at that failing input. -/
theorem C1_requested_radix_never_applied :
    Parse "hex(255)" =
      ParseOut.out [setOutputN (newSetOutput 0 "hex"), newLParen 3,
        numberN (newNumber 4 "255" .Dec), newRParen 7, newEOF 8] none 8 ∧
    Exec testEnv 20 emptyState
      [setOutputN (newSetOutput 0 "hex"), newLParen 3,
       numberN (newNumber 4 "255" .Dec), newRParen 7, newEOF 8] true =
      ExecResult.ret "255" none emptyState ∧
    (newSetOutput 0 "hex").output = .Hex ∧
    "255" ≠ "0xff" :=
  ⟨rfl, rfl, rfl, by decide⟩

/-- C2: the claim says `Parse` then `Exec` always yields either a result in
the requested radix's canonical literal form or a structured error.  For the
accepted input `abs(10)` the evaluator's reduction loop terminates without
handling the `abs` node and `Exec` returns the literal output `"ERROR"`
with a `nil` error — neither a canonical literal (the default radix is
decimal and `parseNumberSystem` would have to re-read it) nor a structured
error — while the repository's own test expects `"10"`.  This theorem
evaluates the embedded code at that failing input. -/
theorem C2_abs_yields_error_text_without_error :
    Parse "abs(10)" =
      ParseOut.out [newAbs 0, newLParen 3, numberN (newNumber 4 "10" .Dec),
        newRParen 6, newEOF 7] none 7 ∧
    Exec testEnv 20 emptyState
      [newAbs 0, newLParen 3, numberN (newNumber 4 "10" .Dec),
       newRParen 6, newEOF 7] true =
      ExecResult.ret "ERROR" none emptyState ∧
    "ERROR" ≠ "10" :=
  ⟨rfl, rfl, by decide⟩

/-- Helper for C6: the pemdas tail of `Exec` leaves the state untouched
whenever it reports an error. -/
theorem execPemdas_err_state (fuel : Nat) (zs : ZappacState) (nodes : List Node)
    (os : NumberSystem) (tv : String) (out e : String) (zs2 : ZappacState)
    (h : execPemdas fuel zs nodes os tv = .ret out (some e) zs2) : zs2 = zs := by
  unfold execPemdas at h
  split at h
  · exact absurd h (by simp)
  · exact absurd h (by simp)
  · split at h
    · split at h <;> simp_all
    · simp_all

/-- C6: if evaluation of a line fails (`Exec` returns an error), the
variable store is left unchanged — an assignment is committed only after
the full reduction has succeeded. -/
theorem C6_store_unchanged_on_error (env : PersistEnv) (fuel : Nat) (zs : ZappacState)
    (nodes : List Node) (upd : Bool) (out e : String) (zs2 : ZappacState)
    (h : Exec env fuel zs nodes upd = .ret out (some e) zs2) :
    zs2.Variables = zs.Variables := by
  cases nodes with
  | nil => simp [Exec] at h
  | cons n0 restNodes =>
    unfold Exec at h
    simp only [] at h
    split at h
    · exact congrArg ZappacState.Variables (execPemdas_err_state _ _ _ _ _ _ _ _ h)
    · split at h
      · exact congrArg ZappacState.Variables (execPemdas_err_state _ _ _ _ _ _ _ _ h)
      · split at h
        · simp at h
        · split at h
          · simp at h
          · split at h
            · simp at h
            · exact congrArg ZappacState.Variables (execPemdas_err_state _ _ _ _ _ _ _ _ h)

/-- C6, witness: an unknown-variable failure (`$fo + 1` against a store
holding only `$x`) aborts with the error and the store is unchanged. -/
theorem C6_store_unchanged_on_error_witness :
    Exec testEnv 20 { Variables := [("$x", newNumber 0 "5" .Dec)] }
      [newVariable 0 "$fo", operatorN (newOperator 4 "+"),
       numberN (newNumber 6 "1" .Dec), newEOF 8] true =
      ExecResult.ret "" (some "unknown variable $fo")
        { Variables := [("$x", newNumber 0 "5" .Dec)] } ∧
    ({ Variables := [("$x", newNumber 0 "5" .Dec)] } : ZappacState).Variables =
      ({ Variables := [("$x", newNumber 0 "5" .Dec)] } : ZappacState).Variables :=
  ⟨rfl, C6_store_unchanged_on_error testEnv 20
    { Variables := [("$x", newNumber 0 "5" .Dec)] }
    [newVariable 0 "$fo", operatorN (newOperator 4 "+"),
     numberN (newNumber 6 "1" .Dec), newEOF 8]
    true "" "unknown variable $fo"
    { Variables := [("$x", newNumber 0 "5" .Dec)] } rfl⟩

/-- C9: when the first node is `Clear`, `Save` or `Load`, `Exec` returns a
`nil` error unconditionally; persistence failures are reported only through
the result string — in particular a failing profile read under `Load`
returns the raw error text in place of the `Loaded <name>` message, with
the state untouched. -/
theorem C9_disk_verbs_never_error (env : PersistEnv) (fuel : Nat) (zs : ZappacState)
    (n0 : Node) (restNodes : List Node) (upd : Bool)
    (h : n0.type = NodeClear ∨ n0.type = NodeSave ∨ n0.type = NodeLoad) :
    (∃ out zs2, Exec env fuel zs (n0 :: restNodes) upd = .ret out none zs2) ∧
    (∀ d : DiskOperationNode, n0 = diskOperationN d → d.typ = NodeLoad →
      ∀ e, env.readFile (getProfileFile env d.profile) = .error e →
        Exec env fuel zs (n0 :: restNodes) upd = .ret e none zs) := by
  constructor
  · rcases h with h | h | h <;> simp [Exec, h] <;> simp [load] <;>
      rcases hr : env.readFile (getProfileFile env _) with e | c
    all_goals try exact ⟨_, _, rfl⟩
    all_goals try simp
    all_goals
      rcases hu : env.unmarshal c with e2 | vars <;> simp
  · intro d hd ht e hr
    subst hd
    simp [Exec, Node.type, ht, load, hr]

/-- C9, witness: `load(foobar)` against the test oracle (whose reads fail)
returns the raw `open ... no such file` text with a `nil` error. -/
theorem C9_disk_verbs_never_error_witness :
    Exec testEnv 20 emptyState
      [diskOperationN (newDiskOperation 0 "load" "foobar"), newEOF 12] true =
      ExecResult.ret "open /tmp/zappac/foobar.json: no such file or directory" none emptyState :=
  (C9_disk_verbs_never_error testEnv 20 emptyState
      (diskOperationN (newDiskOperation 0 "load" "foobar")) [newEOF 12] true
      (Or.inr (Or.inr rfl))).2
    (newDiskOperation 0 "load" "foobar") rfl rfl
    "open /tmp/zappac/foobar.json: no such file or directory" rfl

/-! ## Parser state lemmas -/

/-- A channel read that yields an item advances `pos` by one and leaves the
parenthesis counter (and the bookkeeping fields) alone. -/
theorem nextFromStream_some (p : ParserState) :
    ∀ s itm q, nextFromStream p s = .ok (some itm, q) →
      q.parenthesis = p.parenthesis ∧ q.pos = p.pos + 1 ∧
      q.inputLen = p.inputLen ∧ q.lastLexerEnd = p.lastLexerEnd := by
  intro s
  induction s with
  | nil => intro itm q h; simp [nextFromStream] at h
  | cons i rest ih =>
    intro itm q h
    unfold nextFromStream at h
    split at h
    · exact ih itm q h
    · split at h
      · split at h <;> simp_all
      · split at h
        · simp_all
        · simp only [Except.ok.injEq, Prod.mk.injEq, Option.some.injEq] at h
          rcases h with ⟨_, hq⟩
          subst hq
          exact ⟨rfl, rfl, rfl, rfl⟩

/-- A channel read that reports end of input leaves the state alone (bar
the consumed stream) and implies the parenthesis counter is zero. -/
theorem nextFromStream_none (p : ParserState) :
    ∀ s q, nextFromStream p s = .ok (none, q) →
      q.parenthesis = p.parenthesis ∧ p.parenthesis = 0 ∧ q.pos = p.pos ∧
      q.items = p.items ∧ q.inputLen = p.inputLen ∧ q.lastLexerEnd = p.lastLexerEnd := by
  intro s
  induction s with
  | nil => intro q h; simp [nextFromStream] at h
  | cons i rest ih =>
    intro q h
    unfold nextFromStream at h
    split at h
    · exact ih q h
    · split at h
      · split at h
        · simp_all
        · simp only [Except.ok.injEq, Prod.mk.injEq] at h
          rcases h with ⟨_, hq⟩
          subst hq
          refine ⟨rfl, by omega, rfl, rfl, rfl, rfl⟩
      · split at h <;> simp_all

/-- `nextItem` with an item: `pos` advances, parenthesis and bookkeeping
stay. -/
theorem nextItem_some (p : ParserState) (itm : Item) (q : ParserState)
    (h : nextItem p = .ok (some itm, q)) :
    q.parenthesis = p.parenthesis ∧ q.pos = p.pos + 1 ∧
    q.inputLen = p.inputLen ∧ q.lastLexerEnd = p.lastLexerEnd := by
  unfold nextItem at h
  split at h
  · simp only [Except.ok.injEq, Prod.mk.injEq, Option.some.injEq] at h
    rcases h with ⟨_, hq⟩
    subst hq
    exact ⟨rfl, rfl, rfl, rfl⟩
  · exact nextFromStream_some p p.stream itm q h

/-- `nextItem` at end of input: the state is unchanged (bar the stream) and
the parenthesis counter is zero. -/
theorem nextItem_none (p : ParserState) (q : ParserState)
    (h : nextItem p = .ok (none, q)) :
    q.parenthesis = p.parenthesis ∧ p.parenthesis = 0 ∧ q.pos = p.pos ∧
    q.inputLen = p.inputLen ∧ q.lastLexerEnd = p.lastLexerEnd := by
  unfold nextItem at h
  split at h
  · simp at h
  · have := nextFromStream_none p p.stream q h
    exact ⟨this.1, this.2.1, this.2.2.1, this.2.2.2.2.1, this.2.2.2.2.2⟩

/-- `peek` restores `pos` and does not touch the parenthesis counter or
the bookkeeping fields. -/
theorem peek_state (p : ParserState) (x : Option Item) (q : ParserState)
    (h : peek p = .ok (x, q)) :
    q.parenthesis = p.parenthesis ∧ q.pos = p.pos ∧
    q.inputLen = p.inputLen ∧ q.lastLexerEnd = p.lastLexerEnd := by
  unfold peek at h
  split at h
  · simp at h
  · rename_i r itm2 q2 heq
    simp only [Except.ok.injEq, Prod.mk.injEq] at h
    rcases h with ⟨hx, hq⟩
    subst hq
    cases itm2 with
    | some i =>
      have := nextItem_some p i q2 heq
      exact ⟨this.1, rfl, this.2.2.1, this.2.2.2⟩
    | none =>
      have := nextItem_none p q2 heq
      exact ⟨this.1, rfl, this.2.2.2.1, this.2.2.2.2⟩

/-! ## Counting lemmas -/

/-- `countType` distributes over append. -/
theorem countType_append (ns ms : List Node) (t : NodeType) :
    countType (ns ++ ms) t = countType ns t + countType ms t := by
  unfold countType
  rw [List.filter_append, List.length_append]

/-- `countType` of a singleton. -/
theorem countType_single (n : Node) (t : NodeType) :
    countType [n] t = if n.type = t then 1 else 0 := by
  unfold countType
  by_cases h : n.type = t <;> simp [h, List.filter]

/-- `countType` ignores the identity of a replaced head node of equal
paren-irrelevance. -/
theorem countType_cons (n : Node) (ns : List Node) (t : NodeType) :
    countType (n :: ns) t = (if n.type = t then 1 else 0) + countType ns t := by
  have : n :: ns = [n] ++ ns := rfl
  rw [this, countType_append, countType_single]

/-- `stepEOF` with a zero parenthesis counter returns balanced nodes. -/
theorem stepEOF_balance (p1 : ParserState) (nodes : List Node)
    (hbal : countType nodes NodeLParen = countType nodes NodeRParen + p1.parenthesis)
    (hz0 : p1.parenthesis = 0) :
    BalanceOut (stepEOF p1 nodes) := by
  suffices H : ∀ r, stepEOF p1 nodes = r → BalanceOut r from H _ rfl
  intro r hr
  unfold stepEOF at hr
  subst hr
  unfold BalanceOut
  split
  · rename_i heq
    exact absurd heq (by simp)
  · rename_i ns2 le2 heq
    simp only [StepOut.done.injEq, ParseOut.out.injEq] at heq
    obtain ⟨hns, -, -⟩ := heq
    subst hns
    simp [countType_append, countType_single, Node.type, newEOF]
    omega
  · trivial

/-- `stepEquals` preserves the invariant. -/
theorem stepEquals_balance (itm : Item) (p1 : ParserState) (nodes : List Node)
    (hbal : countType nodes NodeLParen = countType nodes NodeRParen + p1.parenthesis)
    (hpos : 1 ≤ p1.pos) :
    BalanceOut (stepEquals itm p1 nodes) := by
  suffices H : ∀ r, stepEquals itm p1 nodes = r → BalanceOut r from H _ rfl
  intro r hr
  unfold stepEquals at hr
  simp only [] at hr
  split at hr
  · subst hr; trivial
  · split at hr
    · subst hr; trivial
    · split at hr
      · subst hr; trivial
      · split at hr
        · subst hr
          refine ⟨?_, fun h0 => by omega⟩
          simp [countType_cons, Node.type, newAssign] at hbal ⊢
          omega
        · subst hr; trivial

/-- `stepVariable` preserves the invariant. -/
theorem stepVariable_balance (itm : Item) (p1 : ParserState) (nodes : List Node)
    (hbal : countType nodes NodeLParen = countType nodes NodeRParen + p1.parenthesis)
    (hpos : 1 ≤ p1.pos) :
    BalanceOut (stepVariable itm p1 nodes) := by
  suffices H : ∀ r, stepVariable itm p1 nodes = r → BalanceOut r from H _ rfl
  intro r hr
  unfold stepVariable at hr
  simp only [] at hr
  split at hr
  · split at hr
    · subst hr; trivial
    · split at hr
      · split at hr
        · subst hr; trivial
        · subst hr
          refine ⟨?_, fun h0 => by omega⟩
          simp [countType_append, countType_single, Node.type, newVariable]
          omega
      · split at hr
        · subst hr; trivial
        · subst hr
          refine ⟨?_, fun h0 => by omega⟩
          simp [countType_append, countType_single, Node.type, newVariable]
          omega
  · subst hr
    refine ⟨?_, fun h0 => by omega⟩
    simp [countType_append, countType_single, Node.type, newVariable]
    omega

/-- `stepSetOutput` preserves the invariant. -/
theorem stepSetOutput_balance (itm : Item) (p1 : ParserState) (nodes : List Node)
    (hbal : countType nodes NodeLParen = countType nodes NodeRParen + p1.parenthesis)
    (hpos : 1 ≤ p1.pos) :
    BalanceOut (stepSetOutput itm p1 nodes) := by
  suffices H : ∀ r, stepSetOutput itm p1 nodes = r → BalanceOut r from H _ rfl
  intro r hr
  unfold stepSetOutput at hr
  split at hr
  · subst hr; trivial
  · subst hr
    refine ⟨?_, fun h0 => by omega⟩
    simp [countType_append, countType_single, Node.type, newSetOutput]
    omega

/-- An `ite` of two values unequal to `x` is unequal to `x`. -/
theorem ite_ne_helper {c : Prop} [Decidable c] {a b x : NodeType}
    (ha : a ≠ x) (hb : b ≠ x) : (if c then a else b) ≠ x := by
  split
  · exact ha
  · exact hb

/-- `operatorMap` never yields a parenthesis node type. -/
theorem operatorMap_ne (s : String) :
    operatorMap s ≠ NodeLParen ∧ operatorMap s ≠ NodeRParen := by
  refine ⟨?_, ?_⟩ <;>
  · unfold operatorMap
    repeat apply ite_ne_helper (by decide)
    decide

/-- `diskOperationMap` never yields a parenthesis node type. -/
theorem diskOperationMap_ne (s : String) :
    diskOperationMap s ≠ NodeLParen ∧ diskOperationMap s ≠ NodeRParen := by
  refine ⟨?_, ?_⟩ <;>
  · unfold diskOperationMap
    repeat apply ite_ne_helper (by decide)
    decide

/-- `operatorFinish` preserves the invariant. -/
theorem operatorFinish_balance (itm : Item) (nodes : List Node) (pk? : Option Item)
    (p2 : ParserState) (isNeg : Bool)
    (hbal : countType nodes NodeLParen = countType nodes NodeRParen + p2.parenthesis)
    (hpos : 1 ≤ p2.pos) :
    BalanceOut (operatorFinish itm nodes pk? p2 isNeg) := by
  suffices H : ∀ r, operatorFinish itm nodes pk? p2 isNeg = r → BalanceOut r from H _ rfl
  intro r hr
  unfold operatorFinish at hr
  obtain ⟨ho1, ho2⟩ := operatorMap_ne itm.val
  cases pk? with
  | none =>
    simp only [] at hr
    split at hr
    · subst hr; trivial
    · split at hr
      · subst hr; trivial
      · split at hr
        · subst hr; trivial
        · subst hr
          refine ⟨?_, fun h0 => by omega⟩
          simp [countType_append, countType_single, Node.type, newOperator, ho1, ho2]
          omega
  | some pk =>
    cases isNeg with
    | false =>
      simp only [] at hr
      split at hr
      · subst hr; trivial
      · split at hr
        · subst hr; trivial
        · split at hr
          · subst hr; trivial
          · subst hr
            refine ⟨?_, fun h0 => by omega⟩
            simp [countType_append, countType_single, Node.type, newOperator, ho1, ho2]
            omega
    | true =>
      simp only [] at hr
      split at hr
      · split at hr
        · subst hr; trivial
        · split at hr
          · subst hr; trivial
          · subst hr
            refine ⟨?_, fun h0 => by simp at h0⟩
            simp [countType_append, countType_single, Node.type, newNumber]
            omega
      · subst hr
        refine ⟨?_, fun h0 => by simp at h0⟩
        simp [countType_append, countType_single, Node.type, newNumber]
        omega

/-- `stepOperator` preserves the invariant. -/
theorem stepOperator_balance (itm : Item) (p1 : ParserState) (nodes : List Node)
    (hbal : countType nodes NodeLParen = countType nodes NodeRParen + p1.parenthesis)
    (hpos : 1 ≤ p1.pos) :
    BalanceOut (stepOperator itm p1 nodes) := by
  suffices H : ∀ r, stepOperator itm p1 nodes = r → BalanceOut r from H _ rfl
  intro r hr
  unfold stepOperator at hr
  split at hr
  · split at hr
    · split at hr
      · subst hr; trivial
      · rename_i pk? p2 hpk
        obtain ⟨hq1, hq2, -, -⟩ := peek_state _ pk? p2 hpk
        exact hr ▸ operatorFinish_balance itm nodes pk? p2 true (by omega) (by omega)
    · split at hr
      · subst hr; trivial
      · split at hr
        · split at hr
          · subst hr; trivial
          · rename_i pk? p2 hpk
            obtain ⟨hq1, hq2, -, -⟩ := peek_state _ pk? p2 hpk
            simp only [] at hr
            exact hr ▸ operatorFinish_balance itm nodes pk? p2 _ (by omega) (by omega)
        · exact hr ▸ operatorFinish_balance itm nodes none p1 false hbal hpos
  · exact hr ▸ operatorFinish_balance itm nodes none p1 false hbal hpos

/-- `stepNumber` preserves the invariant. -/
theorem stepNumber_balance (itm : Item) (p1 : ParserState) (nodes : List Node)
    (hbal : countType nodes NodeLParen = countType nodes NodeRParen + p1.parenthesis)
    (hpos : 1 ≤ p1.pos) :
    BalanceOut (stepNumber itm p1 nodes) := by
  suffices H : ∀ r, stepNumber itm p1 nodes = r → BalanceOut r from H _ rfl
  intro r hr
  unfold stepNumber at hr
  split at hr
  · split at hr
    · subst hr; trivial
    · split at hr
      · subst hr; trivial
      · subst hr
        refine ⟨?_, fun h0 => by omega⟩
        simp [countType_append, countType_single, Node.type, newNumber]
        omega
  · subst hr
    refine ⟨?_, fun h0 => by omega⟩
    simp [countType_append, countType_single, Node.type, newNumber]
    omega

/-- `stepClear` preserves the invariant (a successful return emits only
the verb and the end marker after an empty prefix). -/
theorem stepClear_balance (itm : Item) (p1 : ParserState) (nodes : List Node)
    (hz1 : p1.pos = 1 → nodes = []) :
    BalanceOut (stepClear itm p1 nodes) := by
  suffices H : ∀ r, stepClear itm p1 nodes = r → BalanceOut r from H _ rfl
  intro r hr
  unfold stepClear at hr
  simp only [] at hr
  split at hr
  · subst hr; trivial
  · rename_i hne
    have hemp : nodes = [] := hz1 (by omega)
    subst hemp
    split at hr
    · subst hr; trivial
    · subst hr; trivial
    · split at hr
      · subst hr; trivial
      · split at hr
        · split at hr
          · subst hr; trivial
          · subst hr
            simp [BalanceOut, countType, Node.type, newClear, newEOF]
        · subst hr; trivial

/-- `stepSaveLoad` preserves the invariant (a successful return emits only
the verb and the end marker after an empty prefix). -/
theorem stepSaveLoad_balance (itm : Item) (p1 : ParserState) (nodes : List Node)
    (hz1 : p1.pos = 1 → nodes = []) :
    BalanceOut (stepSaveLoad itm p1 nodes) := by
  suffices H : ∀ r, stepSaveLoad itm p1 nodes = r → BalanceOut r from H _ rfl
  intro r hr
  unfold stepSaveLoad at hr
  simp only [] at hr
  split at hr
  · subst hr; trivial
  · rename_i hne
    have hemp : nodes = [] := hz1 (by omega)
    subst hemp
    split at hr
    · subst hr; trivial
    · subst hr; trivial
    · split at hr
      · subst hr; trivial
      · split at hr
        · split at hr
          · subst hr; trivial
          · subst hr
            simp [BalanceOut, countType, Node.type, newDiskOperation, newEOF,
              (diskOperationMap_ne itm.val).1, (diskOperationMap_ne itm.val).2]
        · subst hr; trivial

/-- `stepLParen` preserves the invariant. -/
theorem stepLParen_balance (itm : Item) (p1 : ParserState) (nodes : List Node)
    (hbal : countType nodes NodeLParen = countType nodes NodeRParen + p1.parenthesis)
    (hpos : 1 ≤ p1.pos) :
    BalanceOut (stepLParen itm p1 nodes) := by
  suffices H : ∀ r, stepLParen itm p1 nodes = r → BalanceOut r from H _ rfl
  intro r hr
  unfold stepLParen at hr
  simp only [] at hr
  split at hr
  · split at hr
    · subst hr; trivial
    · split at hr
      · subst hr; trivial
      · subst hr
        refine ⟨?_, fun h0 => by simp at h0; omega⟩
        simp [countType_append, countType_single, Node.type, newLParen]
        omega
  · subst hr
    refine ⟨?_, fun h0 => by simp at h0; omega⟩
    simp [countType_append, countType_single, Node.type, newLParen]
    omega

/-- `stepRParen` preserves the invariant. -/
theorem stepRParen_balance (itm : Item) (p1 : ParserState) (nodes : List Node)
    (hbal : countType nodes NodeLParen = countType nodes NodeRParen + p1.parenthesis)
    (hpos : 1 ≤ p1.pos) :
    BalanceOut (stepRParen itm p1 nodes) := by
  suffices H : ∀ r, stepRParen itm p1 nodes = r → BalanceOut r from H _ rfl
  intro r hr
  unfold stepRParen at hr
  split at hr
  · subst hr; trivial
  · rename_i hpz
    split at hr
    · subst hr; trivial
    · split at hr
      · subst hr; trivial
      · subst hr
        refine ⟨?_, fun h0 => by simp at h0; omega⟩
        simp [countType_append, countType_single, Node.type, newRParen]
        omega

/-- `stepAbs` preserves the invariant. -/
theorem stepAbs_balance (itm : Item) (p1 : ParserState) (nodes : List Node)
    (hbal : countType nodes NodeLParen = countType nodes NodeRParen + p1.parenthesis)
    (hpos : 1 ≤ p1.pos) :
    BalanceOut (stepAbs itm p1 nodes) := by
  suffices H : ∀ r, stepAbs itm p1 nodes = r → BalanceOut r from H _ rfl
  intro r hr
  unfold stepAbs at hr
  split at hr
  · split at hr
    · subst hr; trivial
    · split at hr
      · subst hr; trivial
      · subst hr
        refine ⟨?_, fun h0 => by omega⟩
        simp [countType_append, countType_single, Node.type, newAbs]
        omega
  · subst hr
    refine ⟨?_, fun h0 => by omega⟩
    simp [countType_append, countType_single, Node.type, newAbs]
    omega

/-- Helper for C7: one parser step preserves the parenthesis invariant, and
a successful return carries balanced parentheses. -/
theorem readTokensStep_balance (p : ParserState) (nodes : List Node)
    (hinv : ParenInv p nodes) :
    BalanceOut (readTokensStep p nodes) := by
  obtain ⟨hbal, hz⟩ := hinv
  suffices H : ∀ r, readTokensStep p nodes = r → BalanceOut r from H _ rfl
  intro r hr
  unfold readTokensStep at hr
  cases hn : nextItem p with
  | error e =>
    rw [hn] at hr
    simp only [] at hr
    subst hr
    trivial
  | ok pr =>
    obtain ⟨itm?, p1⟩ := pr
    rw [hn] at hr
    cases itm? with
    | none =>
      simp only [] at hr
      obtain ⟨hpar, hz0, -, -, -⟩ := nextItem_none p p1 hn
      have := stepEOF_balance p1 nodes (by omega) (by omega)
      rw [hr] at this
      exact this
    | some itm =>
      obtain ⟨hpar, hpos, -, -⟩ := nextItem_some p itm p1 hn
      split at hr
      · rename_i heq
        exact absurd heq (by simp)
      · rename_i heq
        exact absurd heq (by simp)
      all_goals rename_i itm2 p0 heq
      all_goals simp only [Except.ok.injEq, Prod.mk.injEq, Option.some.injEq] at heq
      all_goals obtain ⟨hi2, hp0⟩ := heq
      all_goals subst hi2
      all_goals subst hp0
      obtain ⟨ityp, ipos, ival, iendP⟩ := itm
      cases ityp
      case itemError =>
        simp [isItemType, operatorItems] at hr
        subst hr; trivial
      case itemEOF =>
        simp [isItemType, operatorItems] at hr
        subst hr; trivial
      case itemSpace =>
        simp [isItemType, operatorItems] at hr
        subst hr; trivial
      case itemText =>
        simp [isItemType, operatorItems] at hr
        subst hr; trivial
      case itemEquals =>
        simp [isItemType, operatorItems] at hr
        exact hr ▸ stepEquals_balance _ _ nodes (by simp; omega) (by simp; omega)
      case itemVariable =>
        simp [isItemType, operatorItems] at hr
        exact hr ▸ stepVariable_balance _ _ nodes (by simp; omega) (by simp; omega)
      case itemLParen =>
        simp [isItemType, operatorItems] at hr
        exact hr ▸ stepLParen_balance _ _ nodes (by simp; omega) (by simp; omega)
      case itemRParen =>
        simp [isItemType, operatorItems] at hr
        exact hr ▸ stepRParen_balance _ _ nodes (by simp; omega) (by simp; omega)
      case itemNumber =>
        simp [isItemType, operatorItems] at hr
        exact hr ▸ stepNumber_balance _ _ nodes (by simp; omega) (by simp; omega)
      case itemAbs =>
        simp [isItemType, operatorItems] at hr
        exact hr ▸ stepAbs_balance _ _ nodes (by simp; omega) (by simp; omega)
      case itemAdd =>
        simp [isItemType, operatorItems] at hr
        exact hr ▸ stepOperator_balance _ _ nodes (by simp; omega) (by simp; omega)
      case itemSub =>
        simp [isItemType, operatorItems] at hr
        exact hr ▸ stepOperator_balance _ _ nodes (by simp; omega) (by simp; omega)
      case itemMult =>
        simp [isItemType, operatorItems] at hr
        exact hr ▸ stepOperator_balance _ _ nodes (by simp; omega) (by simp; omega)
      case itemExp =>
        simp [isItemType, operatorItems] at hr
        exact hr ▸ stepOperator_balance _ _ nodes (by simp; omega) (by simp; omega)
      case itemDiv =>
        simp [isItemType, operatorItems] at hr
        exact hr ▸ stepOperator_balance _ _ nodes (by simp; omega) (by simp; omega)
      case itemFdiv =>
        simp [isItemType, operatorItems] at hr
        exact hr ▸ stepOperator_balance _ _ nodes (by simp; omega) (by simp; omega)
      case itemAnd =>
        simp [isItemType, operatorItems] at hr
        exact hr ▸ stepOperator_balance _ _ nodes (by simp; omega) (by simp; omega)
      case itemOr =>
        simp [isItemType, operatorItems] at hr
        exact hr ▸ stepOperator_balance _ _ nodes (by simp; omega) (by simp; omega)
      case itemXor =>
        simp [isItemType, operatorItems] at hr
        exact hr ▸ stepOperator_balance _ _ nodes (by simp; omega) (by simp; omega)
      case itemInv =>
        simp [isItemType, operatorItems] at hr
        exact hr ▸ stepOperator_balance _ _ nodes (by simp; omega) (by simp; omega)
      case itemMod =>
        simp [isItemType, operatorItems] at hr
        exact hr ▸ stepOperator_balance _ _ nodes (by simp; omega) (by simp; omega)
      case itemLShift =>
        simp [isItemType, operatorItems] at hr
        exact hr ▸ stepOperator_balance _ _ nodes (by simp; omega) (by simp; omega)
      case itemRShift =>
        simp [isItemType, operatorItems] at hr
        exact hr ▸ stepOperator_balance _ _ nodes (by simp; omega) (by simp; omega)
      case itemDec =>
        simp [isItemType, operatorItems] at hr
        exact hr ▸ stepSetOutput_balance _ _ nodes (by simp; omega) (by simp; omega)
      case itemHex =>
        simp [isItemType, operatorItems] at hr
        exact hr ▸ stepSetOutput_balance _ _ nodes (by simp; omega) (by simp; omega)
      case itemBin =>
        simp [isItemType, operatorItems] at hr
        exact hr ▸ stepSetOutput_balance _ _ nodes (by simp; omega) (by simp; omega)
      case itemOct =>
        simp [isItemType, operatorItems] at hr
        exact hr ▸ stepSetOutput_balance _ _ nodes (by simp; omega) (by simp; omega)
      case itemClear =>
        simp [isItemType, operatorItems] at hr
        exact hr ▸ stepClear_balance _ _ nodes (fun h1 => (hz (by simp at h1; omega)).1)
      case itemSave =>
        simp [isItemType, operatorItems] at hr
        exact hr ▸ stepSaveLoad_balance _ _ nodes (fun h1 => (hz (by simp at h1; omega)).1)
      case itemLoad =>
        simp [isItemType, operatorItems] at hr
        exact hr ▸ stepSaveLoad_balance _ _ nodes (fun h1 => (hz (by simp at h1; omega)).1)

/-- Helper for C7: any successful `readTokensLoop` run from a state
satisfying the invariant returns balanced parentheses. -/
theorem readTokensLoop_balance : ∀ (fuel : Nat) (p : ParserState) (nodes : List Node),
    ParenInv p nodes → ∀ ns le, readTokensLoop fuel p nodes = .out ns none le →
    countType ns NodeLParen = countType ns NodeRParen := by
  intro fuel
  induction fuel with
  | zero =>
    intro p nodes _ ns le h
    simp [readTokensLoop] at h
  | succ f ih =>
    intro p nodes hinv ns le h
    have hs := readTokensStep_balance p nodes hinv
    unfold readTokensLoop at h
    cases hr : readTokensStep p nodes with
    | cont p2 nodes2 =>
      rw [hr] at h hs
      exact ih p2 nodes2 hs ns le h
    | done r2 =>
      rw [hr] at h hs
      simp only [] at h
      subst h
      simpa [BalanceOut] using hs

/-- C7: parenthesis balance.  (1) Every node sequence the parser accepts
carries equally many opening and closing parenthesis nodes.  (2) A `)` item
read with zero open depth makes the step return the no-parenthesis-open
error.  (3) An end-of-input item read while the open depth is positive
makes the channel read fail with the unclosed-parenthesis error. -/
theorem C7_parenthesis_balance :
    (∀ (stream : List Item) (inputLen : Nat) (ns : List Node) (le : Int),
      readTokens stream inputLen = .out ns none le →
      countType ns NodeLParen = countType ns NodeRParen) ∧
    (∀ (p : ParserState) (nodes : List Node) (itm : Item) (q : ParserState),
      nextItem p = .ok (some itm, q) → itm.typ = itemRParen → p.parenthesis = 0 →
      readTokensStep p nodes =
        .done (.out nodes
          (some ("unexpected ) at pos " ++ toString itm.pos ++ ", no parenthesis open"))
          itm.endP)) ∧
    (∀ (p : ParserState) (itm : Item) (rest : List Item),
      itm.typ = itemEOF → p.parenthesis > 0 →
      nextFromStream p (itm :: rest) =
        .error "unexpected end of input, there are unclosed parenthesis") := by
  refine ⟨?_, ?_, ?_⟩
  · intro stream inputLen ns le h
    exact readTokensLoop_balance (stream.length + 2)
      { items := [], pos := 0, parenthesis := 0, stream := stream,
        inputLen := inputLen, lastLexerEnd := 0 } []
      ⟨by simp [countType], fun _ => ⟨rfl, rfl⟩⟩ ns le h
  · intro p nodes itm q hn htyp hpz
    obtain ⟨hpar, -, -, -⟩ := nextItem_some p itm q hn
    obtain ⟨ityp, ipos, ival, iendP⟩ := itm
    simp only [] at htyp
    subst htyp
    unfold readTokensStep
    rw [hn]
    simp [isItemType, operatorItems]
    unfold stepRParen
    rw [if_pos (by simp; omega)]
  · intro p itm rest htyp hpz
    unfold nextFromStream
    simp [htyp, hpz]

/-- C7, witness: the accepted parse of `(1)` is balanced; a lone `)` item
errors at zero depth; an end marker under one open parenthesis errors. -/
theorem C7_parenthesis_balance_witness :
    countType [newLParen 0, numberN (newNumber 1 "1" .Dec), newRParen 2, newEOF 3]
        NodeLParen =
      countType [newLParen 0, numberN (newNumber 1 "1" .Dec), newRParen 2, newEOF 3]
        NodeRParen ∧
    readTokensStep
        { items := [], pos := 0, parenthesis := 0,
          stream := [mkItem itemRParen 0 ")", mkItem itemEOF 1 ""],
          inputLen := 1, lastLexerEnd := 0 } [] =
      .done (.out [] (some "unexpected ) at pos 0, no parenthesis open") 1) ∧
    nextFromStream
        { items := [], pos := 0, parenthesis := 1,
          stream := [mkItem itemEOF 2 ""], inputLen := 2, lastLexerEnd := 0 }
        [mkItem itemEOF 2 ""] =
      .error "unexpected end of input, there are unclosed parenthesis" := by
  refine ⟨?_, ?_, ?_⟩
  · exact (C7_parenthesis_balance.1) (lex "(1)") 3
      [newLParen 0, numberN (newNumber 1 "1" .Dec), newRParen 2, newEOF 3] 3 (by rfl)
  · exact (C7_parenthesis_balance.2.1) _ [] (mkItem itemRParen 0 ")") _ (by rfl) (by rfl) (by rfl)
  · exact (C7_parenthesis_balance.2.2) _ (mkItem itemEOF 2 "") [] (by rfl) (by decide)

/-! ## The lowercase invariant (C10) -/

/-- Appending a lowercased node preserves `LowerInv`. -/
theorem LowerInv_push (ns : List Node) (x : Node) (h : LowerInv ns)
    (hx : NodeLowercased x) : LowerInv (ns ++ [x]) := by
  intro n hn
  rcases List.mem_append.mp hn with h1 | h1
  · exact h n h1
  · simp only [List.mem_singleton] at h1
    subst h1
    exact hx

/-- Appending two lowercased nodes preserves `LowerInv`. -/
theorem LowerInv_push2 (ns : List Node) (x y : Node) (h : LowerInv ns)
    (hx : NodeLowercased x) (hy : NodeLowercased y) : LowerInv (ns ++ [x, y]) := by
  have : ns ++ [x, y] = (ns ++ [x]) ++ [y] := by simp
  rw [this]
  exact LowerInv_push _ y (LowerInv_push ns x h hx) hy

/-- Replacing the head with a lowercased node preserves `LowerInv`. -/
theorem LowerInv_replaceHead (x y : Node) (ns : List Node) (h : LowerInv (x :: ns))
    (hy : NodeLowercased y) : LowerInv (y :: ns) := by
  intro n hn
  rcases List.mem_cons.mp hn with h1 | h1
  · subst h1
    exact hy
  · exact h n (List.mem_cons_of_mem _ h1)

/-- A freshly built number node is lowercased. -/
theorem lower_newNumber (pos : Int) (v : String) (sys : NumberSystem) :
    NodeLowercased (numberN (newNumber pos v sys)) := by
  intro nn h
  cases h
  exact newNumber_value_lowered pos v sys

/-- `stepEOF` preserves the lowercase invariant. -/
theorem stepEOF_lower (p1 : ParserState) (nodes : List Node) (h : LowerInv nodes) :
    LowerOutP (stepEOF p1 nodes) := by
  suffices H : ∀ r, stepEOF p1 nodes = r → LowerOutP r from H _ rfl
  intro r hr
  unfold stepEOF at hr
  subst hr
  exact LowerInv_push nodes _ h (fun nn hh => nomatch hh)

/-- `stepEquals` preserves the lowercase invariant. -/
theorem stepEquals_lower (itm : Item) (p1 : ParserState) (nodes : List Node)
    (h : LowerInv nodes) : LowerOutP (stepEquals itm p1 nodes) := by
  suffices H : ∀ r, stepEquals itm p1 nodes = r → LowerOutP r from H _ rfl
  intro r hr
  unfold stepEquals at hr
  simp only [] at hr
  split at hr
  · subst hr; exact h
  · split at hr
    · subst hr; trivial
    · split at hr
      · subst hr; exact h
      · split at hr
        · subst hr
          exact LowerInv_replaceHead _ _ _ h (fun nn hh => nomatch hh)
        · subst hr; trivial

/-- `stepVariable` preserves the lowercase invariant. -/
theorem stepVariable_lower (itm : Item) (p1 : ParserState) (nodes : List Node)
    (h : LowerInv nodes) : LowerOutP (stepVariable itm p1 nodes) := by
  suffices H : ∀ r, stepVariable itm p1 nodes = r → LowerOutP r from H _ rfl
  intro r hr
  unfold stepVariable at hr
  simp only [] at hr
  split at hr
  · split at hr
    · subst hr; trivial
    · split at hr
      · split at hr
        · subst hr; exact h
        · subst hr; exact LowerInv_push nodes _ h (fun nn hh => nomatch hh)
      · split at hr
        · subst hr; exact h
        · subst hr; exact LowerInv_push nodes _ h (fun nn hh => nomatch hh)
  · subst hr; exact LowerInv_push nodes _ h (fun nn hh => nomatch hh)

/-- `stepSetOutput` preserves the lowercase invariant. -/
theorem stepSetOutput_lower (itm : Item) (p1 : ParserState) (nodes : List Node)
    (h : LowerInv nodes) : LowerOutP (stepSetOutput itm p1 nodes) := by
  suffices H : ∀ r, stepSetOutput itm p1 nodes = r → LowerOutP r from H _ rfl
  intro r hr
  unfold stepSetOutput at hr
  split at hr
  · subst hr; exact h
  · subst hr; exact LowerInv_push nodes _ h (fun nn hh => nomatch hh)

/-- `operatorFinish` preserves the lowercase invariant. -/
theorem operatorFinish_lower (itm : Item) (nodes : List Node) (pk? : Option Item)
    (p2 : ParserState) (isNeg : Bool) (h : LowerInv nodes) :
    LowerOutP (operatorFinish itm nodes pk? p2 isNeg) := by
  suffices H : ∀ r, operatorFinish itm nodes pk? p2 isNeg = r → LowerOutP r from H _ rfl
  intro r hr
  unfold operatorFinish at hr
  cases pk? with
  | none =>
    simp only [] at hr
    split at hr
    · subst hr; exact h
    · split at hr
      · subst hr; trivial
      · split at hr
        · subst hr; exact h
        · subst hr; exact LowerInv_push nodes _ h (fun nn hh => nomatch hh)
  | some pk =>
    cases isNeg with
    | false =>
      simp only [] at hr
      split at hr
      · subst hr; exact h
      · split at hr
        · subst hr; trivial
        · split at hr
          · subst hr; exact h
          · subst hr; exact LowerInv_push nodes _ h (fun nn hh => nomatch hh)
    | true =>
      simp only [] at hr
      split at hr
      · split at hr
        · subst hr; trivial
        · split at hr
          · subst hr; exact h
          · subst hr; exact LowerInv_push nodes _ h (lower_newNumber _ _ _)
      · subst hr; exact LowerInv_push nodes _ h (lower_newNumber _ _ _)

/-- `stepOperator` preserves the lowercase invariant. -/
theorem stepOperator_lower (itm : Item) (p1 : ParserState) (nodes : List Node)
    (h : LowerInv nodes) : LowerOutP (stepOperator itm p1 nodes) := by
  suffices H : ∀ r, stepOperator itm p1 nodes = r → LowerOutP r from H _ rfl
  intro r hr
  unfold stepOperator at hr
  split at hr
  · split at hr
    · split at hr
      · subst hr; exact h
      · exact hr ▸ operatorFinish_lower itm nodes _ _ true h
    · split at hr
      · subst hr; trivial
      · split at hr
        · split at hr
          · subst hr; exact h
          · simp only [] at hr
            exact hr ▸ operatorFinish_lower itm nodes _ _ _ h
        · exact hr ▸ operatorFinish_lower itm nodes none p1 false h
  · exact hr ▸ operatorFinish_lower itm nodes none p1 false h

/-- `stepNumber` preserves the lowercase invariant. -/
theorem stepNumber_lower (itm : Item) (p1 : ParserState) (nodes : List Node)
    (h : LowerInv nodes) : LowerOutP (stepNumber itm p1 nodes) := by
  suffices H : ∀ r, stepNumber itm p1 nodes = r → LowerOutP r from H _ rfl
  intro r hr
  unfold stepNumber at hr
  split at hr
  · split at hr
    · subst hr; trivial
    · split at hr
      · subst hr; exact h
      · subst hr; exact LowerInv_push nodes _ h (lower_newNumber _ _ _)
  · subst hr; exact LowerInv_push nodes _ h (lower_newNumber _ _ _)

/-- `stepClear` preserves the lowercase invariant. -/
theorem stepClear_lower (itm : Item) (p1 : ParserState) (nodes : List Node)
    (h : LowerInv nodes) : LowerOutP (stepClear itm p1 nodes) := by
  suffices H : ∀ r, stepClear itm p1 nodes = r → LowerOutP r from H _ rfl
  intro r hr
  unfold stepClear at hr
  simp only [] at hr
  split at hr
  · subst hr; exact h
  · split at hr
    · subst hr; trivial
    · subst hr; exact h
    · split at hr
      · subst hr; exact h
      · split at hr
        · split at hr
          · subst hr; exact h
          · subst hr
            exact LowerInv_push2 nodes _ _ h (fun nn hh => nomatch hh) (fun nn hh => nomatch hh)
        · subst hr; trivial

/-- `stepSaveLoad` preserves the lowercase invariant. -/
theorem stepSaveLoad_lower (itm : Item) (p1 : ParserState) (nodes : List Node)
    (h : LowerInv nodes) : LowerOutP (stepSaveLoad itm p1 nodes) := by
  suffices H : ∀ r, stepSaveLoad itm p1 nodes = r → LowerOutP r from H _ rfl
  intro r hr
  unfold stepSaveLoad at hr
  simp only [] at hr
  split at hr
  · subst hr; exact h
  · split at hr
    · subst hr; trivial
    · subst hr; exact h
    · split at hr
      · subst hr; exact h
      · split at hr
        · split at hr
          · subst hr; exact h
          · subst hr
            exact LowerInv_push2 nodes _ _ h (fun nn hh => nomatch hh) (fun nn hh => nomatch hh)
        · subst hr; trivial

/-- `stepLParen` preserves the lowercase invariant. -/
theorem stepLParen_lower (itm : Item) (p1 : ParserState) (nodes : List Node)
    (h : LowerInv nodes) : LowerOutP (stepLParen itm p1 nodes) := by
  suffices H : ∀ r, stepLParen itm p1 nodes = r → LowerOutP r from H _ rfl
  intro r hr
  unfold stepLParen at hr
  simp only [] at hr
  split at hr
  · split at hr
    · subst hr; trivial
    · split at hr
      · subst hr; exact h
      · subst hr; exact LowerInv_push nodes _ h (fun nn hh => nomatch hh)
  · subst hr; exact LowerInv_push nodes _ h (fun nn hh => nomatch hh)

/-- `stepRParen` preserves the lowercase invariant. -/
theorem stepRParen_lower (itm : Item) (p1 : ParserState) (nodes : List Node)
    (h : LowerInv nodes) : LowerOutP (stepRParen itm p1 nodes) := by
  suffices H : ∀ r, stepRParen itm p1 nodes = r → LowerOutP r from H _ rfl
  intro r hr
  unfold stepRParen at hr
  split at hr
  · subst hr; exact h
  · split at hr
    · subst hr; trivial
    · split at hr
      · subst hr; exact h
      · subst hr; exact LowerInv_push nodes _ h (fun nn hh => nomatch hh)

/-- `stepAbs` preserves the lowercase invariant. -/
theorem stepAbs_lower (itm : Item) (p1 : ParserState) (nodes : List Node)
    (h : LowerInv nodes) : LowerOutP (stepAbs itm p1 nodes) := by
  suffices H : ∀ r, stepAbs itm p1 nodes = r → LowerOutP r from H _ rfl
  intro r hr
  unfold stepAbs at hr
  split at hr
  · split at hr
    · subst hr; trivial
    · split at hr
      · subst hr; exact h
      · subst hr; exact LowerInv_push nodes _ h (fun nn hh => nomatch hh)
  · subst hr; exact LowerInv_push nodes _ h (fun nn hh => nomatch hh)

/-- One parser step preserves the lowercase invariant. -/
theorem readTokensStep_lower (p : ParserState) (nodes : List Node)
    (h : LowerInv nodes) : LowerOutP (readTokensStep p nodes) := by
  suffices H : ∀ r, readTokensStep p nodes = r → LowerOutP r from H _ rfl
  intro r hr
  unfold readTokensStep at hr
  cases hn : nextItem p with
  | error e =>
    rw [hn] at hr
    simp only [] at hr
    subst hr
    exact h
  | ok pr =>
    obtain ⟨itm?, p1⟩ := pr
    rw [hn] at hr
    cases itm? with
    | none =>
      simp only [] at hr
      exact hr ▸ stepEOF_lower p1 nodes h
    | some itm =>
      split at hr
      · rename_i heq
        exact absurd heq (by simp)
      · rename_i heq
        exact absurd heq (by simp)
      all_goals rename_i itm2 p0 heq
      all_goals simp only [Except.ok.injEq, Prod.mk.injEq, Option.some.injEq] at heq
      all_goals obtain ⟨hi2, hp0⟩ := heq
      all_goals subst hi2
      all_goals subst hp0
      obtain ⟨ityp, ipos, ival, iendP⟩ := itm
      cases ityp
      case itemError =>
        simp [isItemType, operatorItems] at hr
        subst hr
        exact LowerInv_push nodes _ h (fun nn hh => nomatch hh)
      case itemEOF =>
        simp [isItemType, operatorItems] at hr
        subst hr
        exact LowerInv_push nodes _ h (fun nn hh => nomatch hh)
      case itemSpace =>
        simp [isItemType, operatorItems] at hr
        subst hr
        exact LowerInv_push nodes _ h (fun nn hh => nomatch hh)
      case itemText =>
        simp [isItemType, operatorItems] at hr
        subst hr
        exact LowerInv_push nodes _ h (fun nn hh => nomatch hh)
      case itemEquals =>
        simp [isItemType, operatorItems] at hr
        exact hr ▸ stepEquals_lower _ _ nodes h
      case itemVariable =>
        simp [isItemType, operatorItems] at hr
        exact hr ▸ stepVariable_lower _ _ nodes h
      case itemLParen =>
        simp [isItemType, operatorItems] at hr
        exact hr ▸ stepLParen_lower _ _ nodes h
      case itemRParen =>
        simp [isItemType, operatorItems] at hr
        exact hr ▸ stepRParen_lower _ _ nodes h
      case itemNumber =>
        simp [isItemType, operatorItems] at hr
        exact hr ▸ stepNumber_lower _ _ nodes h
      case itemAbs =>
        simp [isItemType, operatorItems] at hr
        exact hr ▸ stepAbs_lower _ _ nodes h
      case itemAdd =>
        simp [isItemType, operatorItems] at hr
        exact hr ▸ stepOperator_lower _ _ nodes h
      case itemSub =>
        simp [isItemType, operatorItems] at hr
        exact hr ▸ stepOperator_lower _ _ nodes h
      case itemMult =>
        simp [isItemType, operatorItems] at hr
        exact hr ▸ stepOperator_lower _ _ nodes h
      case itemExp =>
        simp [isItemType, operatorItems] at hr
        exact hr ▸ stepOperator_lower _ _ nodes h
      case itemDiv =>
        simp [isItemType, operatorItems] at hr
        exact hr ▸ stepOperator_lower _ _ nodes h
      case itemFdiv =>
        simp [isItemType, operatorItems] at hr
        exact hr ▸ stepOperator_lower _ _ nodes h
      case itemAnd =>
        simp [isItemType, operatorItems] at hr
        exact hr ▸ stepOperator_lower _ _ nodes h
      case itemOr =>
        simp [isItemType, operatorItems] at hr
        exact hr ▸ stepOperator_lower _ _ nodes h
      case itemXor =>
        simp [isItemType, operatorItems] at hr
        exact hr ▸ stepOperator_lower _ _ nodes h
      case itemInv =>
        simp [isItemType, operatorItems] at hr
        exact hr ▸ stepOperator_lower _ _ nodes h
      case itemMod =>
        simp [isItemType, operatorItems] at hr
        exact hr ▸ stepOperator_lower _ _ nodes h
      case itemLShift =>
        simp [isItemType, operatorItems] at hr
        exact hr ▸ stepOperator_lower _ _ nodes h
      case itemRShift =>
        simp [isItemType, operatorItems] at hr
        exact hr ▸ stepOperator_lower _ _ nodes h
      case itemDec =>
        simp [isItemType, operatorItems] at hr
        exact hr ▸ stepSetOutput_lower _ _ nodes h
      case itemHex =>
        simp [isItemType, operatorItems] at hr
        exact hr ▸ stepSetOutput_lower _ _ nodes h
      case itemBin =>
        simp [isItemType, operatorItems] at hr
        exact hr ▸ stepSetOutput_lower _ _ nodes h
      case itemOct =>
        simp [isItemType, operatorItems] at hr
        exact hr ▸ stepSetOutput_lower _ _ nodes h
      case itemClear =>
        simp [isItemType, operatorItems] at hr
        exact hr ▸ stepClear_lower _ _ nodes h
      case itemSave =>
        simp [isItemType, operatorItems] at hr
        exact hr ▸ stepSaveLoad_lower _ _ nodes h
      case itemLoad =>
        simp [isItemType, operatorItems] at hr
        exact hr ▸ stepSaveLoad_lower _ _ nodes h

/-- Any `readTokensLoop` run from a lowercased accumulator yields
lowercased number nodes. -/
theorem readTokensLoop_lower : ∀ (fuel : Nat) (p : ParserState) (nodes : List Node),
    LowerInv nodes → ∀ ns err le, readTokensLoop fuel p nodes = .out ns err le →
    LowerInv ns := by
  intro fuel
  induction fuel with
  | zero =>
    intro p nodes _ ns err le h
    simp [readTokensLoop] at h
  | succ f ih =>
    intro p nodes hinv ns err le h
    have hs := readTokensStep_lower p nodes hinv
    unfold readTokensLoop at h
    cases hr : readTokensStep p nodes with
    | cont p2 nodes2 =>
      rw [hr] at h hs
      exact ih p2 nodes2 hs ns err le h
    | done r2 =>
      rw [hr] at h hs
      simp only [] at h
      subst h
      simpa [LowerOutP] using hs

/-- C10: every `Number` node the program constructs stores its text value
lowercased: the constructor itself lowercases (so every construction site is
covered), every node list the parser returns satisfies the invariant, every
number node the evaluator computes via `calculate` satisfies it, and in
particular parsing the literal `0XFF` yields a hex number node whose stored
value is the lowercased string `0xff`. -/
theorem C10_number_values_always_lowercased :
    (∀ (pos : Int) (v : String) (sys : NumberSystem),
       strToLower (newNumber pos v sys).value = (newNumber pos v sys).value) ∧
    (∀ (stream : List Item) (inputLen : Nat) (ns : List Node) (err : Option String)
       (le : Int), readTokens stream inputLen = .out ns err le →
       ∀ n ∈ ns, NodeLowercased n) ∧
    (∀ (zs : ZappacState) (l r : Node) (op : OperatorNode) (nn : NumberNode),
       calculate zs l op r = .ok nn → strToLower nn.value = nn.value) ∧
    (Parse "0XFF" = .out [numberN (newNumber 0 "0XFF" NumberSystem.Hex), newEOF 4] none 4 ∧
     (newNumber 0 "0XFF" NumberSystem.Hex).value = "0xff") := by
  refine ⟨fun pos v sys => newNumber_value_lowered pos v sys, ?_, ?_, by decide, by decide⟩
  · intro stream inputLen ns err le h
    unfold readTokens at h
    exact readTokensLoop_lower _ _ [] (fun n hn => absurd hn (List.not_mem_nil n)) ns err le h
  · intro zs l r op nn h
    unfold calculate at h
    split at h
    · exact absurd h (by simp)
    · split at h
      · exact absurd h (by simp)
      · split at h
        · exact absurd h (by simp)
        · split at h
          · exact absurd h (by simp)
          · split at h
            · exact absurd h (by simp)
            · simp only [Except.ok.injEq] at h
              subst h
              exact newNumber_value_lowered _ _ _

/-- Concrete instance of C10: the number node parsed from `0XFF` is
lowercased, obtained by applying the parser-invariant conjunct to the lexed
stream of that input. -/
theorem C10_number_values_always_lowercased_witness :
    strToLower (newNumber 0 "0XFF" NumberSystem.Hex).value
      = (newNumber 0 "0XFF" NumberSystem.Hex).value :=
  C10_number_values_always_lowercased.2.1 (lex "0XFF") 4
    [numberN (newNumber 0 "0XFF" NumberSystem.Hex), newEOF 4] none 4 (by decide)
    (numberN (newNumber 0 "0XFF" NumberSystem.Hex)) (List.mem_cons_self _ _)
    (newNumber 0 "0XFF" NumberSystem.Hex) rfl

/-! ## The negative-number fusion rule (C4) -/

/-- Node-type membership distributes over list append. -/
theorem IsNodeType_append (n : Node) (ts us : List NodeType) :
    IsNodeType n (ts ++ us) = (IsNodeType n ts || IsNodeType n us) := by
  simp [IsNodeType, List.any_append]

/-- `operatorFinish` at line start with a peeked item and the
negative-number flag set fuses unconditionally. -/
theorem operatorFinish_fuse (itm : Item) (nodes : List Node) (pk : Item)
    (p2 : ParserState) (h : p2.pos = 1) :
    operatorFinish itm nodes (some pk) p2 true =
      .cont { p2 with pos := p2.pos + 1 }
        (nodes ++ [numberN (newNumber itm.pos ("-" ++ pk.val) (parseNumberSystem pk.val))]) := by
  unfold operatorFinish
  simp [h]

/-- `operatorFinish` past line start with the negative-number flag set fuses
when the node on the left is an operator or prefix-legal. -/
theorem operatorFinish_fuse_left (itm : Item) (nodes : List Node) (pk : Item)
    (p2 : ParserState) (h : p2.pos ≠ 1) (left : Node)
    (hl : nodes.getLast? = some left)
    (hok : IsNodeType left (OperatorNodes ++ prefixNodes) = true) :
    operatorFinish itm nodes (some pk) p2 true =
      .cont { p2 with pos := p2.pos + 1 }
        (nodes ++ [numberN (newNumber itm.pos ("-" ++ pk.val) (parseNumberSystem pk.val))]) := by
  unfold operatorFinish
  simp [h, hl, hok]

/-- `operatorFinish` without the negative-number flag emits a binary
operator when a value node or closing parenthesis is on the left. -/
theorem operatorFinish_operator (itm : Item) (nodes : List Node)
    (pk? : Option Item) (p2 : ParserState) (h : p2.pos ≠ 1) (left : Node)
    (hl : nodes.getLast? = some left)
    (hok : IsNodeType left (ValueNodes ++ [NodeRParen]) = true) :
    operatorFinish itm nodes pk? p2 false =
      .cont p2 (nodes ++ [operatorN (newOperator itm.pos itm.val)]) := by
  cases pk? <;> (unfold operatorFinish; simp [h, hl, hok])

/-- `operatorFinish` without the negative-number flag errors when the node
on the left is neither a value node nor a closing parenthesis. -/
theorem operatorFinish_operator_err (itm : Item) (nodes : List Node)
    (pk? : Option Item) (p2 : ParserState) (h : p2.pos ≠ 1) (left : Node)
    (hl : nodes.getLast? = some left)
    (hbad : IsNodeType left (ValueNodes ++ [NodeRParen]) = false) :
    operatorFinish itm nodes pk? p2 false =
      .done (.out nodes
        (some ("unexpected " ++ itm.val ++ " at pos " ++ toString itm.pos ++
               ", operators should follow numbers, variables, or closing parenthesis"))
        p2.lastLexerEnd) := by
  cases pk? <;> (unfold operatorFinish; simp [h, hl, hbad])

/-- C4, counterexample to case (a): at the very start of the line the parser
fuses `-` with the following item even when that item is not a number.  The
input `-$foo` lexes the `$foo` after the `-` as a variable item, yet the
parser accepts the line as the single bogus number literal `-$foo`. -/
theorem C4_counterexample_pos1_sub_fuses_nonnumber :
    Parse "-$foo" =
      .out [numberN (newNumber 0 "-$foo" NumberSystem.Dec), newEOF 5] none 1 ∧
    (lex "-$foo").get? 1 = some (mkItem ItemType.itemVariable 1 "$foo") ∧
    ItemType.itemVariable ≠ ItemType.itemNumber :=
  ⟨by decide, by decide, by decide⟩

/-- C4, amended: a `-` item fuses into the following item as a unary sign
exactly when (a) it is the very first node position of the line, in which
case it fuses with WHATEVER item follows (number or not — the code never
checks), or (b) past the first position, the node on the left is not a
value node, the peeked item is a number, and the left node is an operator
or a prefix-legal kind (paren, radix setter, assignment).  Otherwise the
`-` is a binary operator that requires a value node or closing parenthesis
on its left and errors without one.  The claim's three example parses hold. -/
theorem C4_amended_sub_fusion_rule :
    (∀ (itm : Item) (p1 : ParserState) (nodes : List Node) (pk : Item)
       (p2 : ParserState), itm.typ = ItemType.itemSub → p1.pos = 1 →
       peek p1 = .ok (some pk, p2) →
       stepOperator itm p1 nodes =
         .cont { p2 with pos := p2.pos + 1 }
           (nodes ++ [numberN (newNumber itm.pos ("-" ++ pk.val)
             (parseNumberSystem pk.val))])) ∧
    (∀ (itm : Item) (p1 : ParserState) (nodes : List Node) (left : Node)
       (pk : Item) (p2 : ParserState), itm.typ = ItemType.itemSub →
       p1.pos ≠ 1 → nodes.getLast? = some left →
       IsNodeType left ValueNodes = false → peek p1 = .ok (some pk, p2) →
       pk.typ = ItemType.itemNumber →
       IsNodeType left (OperatorNodes ++ prefixNodes) = true →
       stepOperator itm p1 nodes =
         .cont { p2 with pos := p2.pos + 1 }
           (nodes ++ [numberN (newNumber itm.pos ("-" ++ pk.val)
             (parseNumberSystem pk.val))])) ∧
    (∀ (itm : Item) (p1 : ParserState) (nodes : List Node) (left : Node),
       itm.typ = ItemType.itemSub → p1.pos ≠ 1 → nodes.getLast? = some left →
       IsNodeType left ValueNodes = true →
       stepOperator itm p1 nodes =
         .cont p1 (nodes ++ [operatorN (newOperator itm.pos itm.val)])) ∧
    (∀ (itm : Item) (p1 : ParserState) (nodes : List Node) (left : Node)
       (pk : Item) (p2 : ParserState), itm.typ = ItemType.itemSub →
       p1.pos ≠ 1 → nodes.getLast? = some left →
       IsNodeType left ValueNodes = false → left.type ≠ NodeRParen →
       peek p1 = .ok (some pk, p2) →
       (pk.typ ≠ ItemType.itemNumber ∨
        IsNodeType left (OperatorNodes ++ prefixNodes) = false) →
       stepOperator itm p1 nodes =
         .done (.out nodes
           (some ("unexpected " ++ itm.val ++ " at pos " ++ toString itm.pos ++
                  ", operators should follow numbers, variables, or closing parenthesis"))
           p1.lastLexerEnd)) ∧
    (Parse "2 - 1" =
      .out [numberN (newNumber 0 "2" NumberSystem.Dec),
            operatorN (newOperator 2 "-"),
            numberN (newNumber 4 "1" NumberSystem.Dec), newEOF 5] none 5) ∧
    (Parse "2 + -1" =
      .out [numberN (newNumber 0 "2" NumberSystem.Dec),
            operatorN (newOperator 2 "+"),
            numberN (newNumber 4 "-1" NumberSystem.Dec), newEOF 6] none 5) ∧
    (Parse "-1 - -2" =
      .out [numberN (newNumber 0 "-1" NumberSystem.Dec),
            operatorN (newOperator 3 "-"),
            numberN (newNumber 5 "-2" NumberSystem.Dec), newEOF 7] none 6) := by
  refine ⟨?_, ?_, ?_, ?_, by decide, by decide, by decide⟩
  · intro itm p1 nodes pk p2 hsub hpos hpk
    obtain ⟨-, hp2, -, -⟩ := peek_state p1 (some pk) p2 hpk
    unfold stepOperator
    rw [if_pos hsub, if_pos hpos, hpk]
    exact operatorFinish_fuse itm nodes pk p2 (hp2.trans hpos)
  · intro itm p1 nodes left pk p2 hsub hpos hl hnv hpk hnum hop
    obtain ⟨-, hp2, -, -⟩ := peek_state p1 (some pk) p2 hpk
    unfold stepOperator
    rw [if_pos hsub, if_neg hpos, hl]
    simp only []
    rw [if_pos (by simp [hnv]), hpk]
    simp only [hnum, hop]
    simp only [decide_eq_true_eq, Bool.or_true, Bool.and_true, decide_True]
    exact operatorFinish_fuse_left itm nodes pk p2 (by rw [hp2]; exact hpos) left hl hop
  · intro itm p1 nodes left hsub hpos hl hv
    unfold stepOperator
    rw [if_pos hsub, if_neg hpos, hl]
    simp only []
    rw [if_neg (by simp [hv])]
    refine operatorFinish_operator itm nodes none p1 hpos left hl ?_
    rw [IsNodeType_append, hv]
    rfl
  · intro itm p1 nodes left pk p2 hsub hpos hl hnv hnrp hpk hbad
    obtain ⟨-, hp2, -, hle⟩ := peek_state p1 (some pk) p2 hpk
    have hbadlist : IsNodeType left (ValueNodes ++ [NodeRParen]) = false := by
      rw [IsNodeType_append, hnv]
      simp [IsNodeType, hnrp]
    unfold stepOperator
    rw [if_pos hsub, if_neg hpos, hl]
    simp only []
    rw [if_pos (by simp [hnv]), hpk]
    have herr := operatorFinish_operator_err itm nodes (some pk) p2
      (by rw [hp2]; exact hpos) left hl hbadlist
    rcases hbad with hb | hb
    · simp only [hb]
      simp only [decide_eq_true_eq, Bool.false_and, decide_False]
      exact hle ▸ herr
    · simp only [hb, hp2]
      simp only [Bool.or_false, decide_eq_true_eq]
      have hd : decide (p1.pos = 1) = false := by simp [hpos]
      rw [hd]
      simp only [Bool.and_false]
      exact hle ▸ herr

/-- Concrete instance of the amended fusion rule, case (a): at line start a
`-` followed by the number item `5` fuses into the literal `-5`. -/
theorem C4_amended_sub_fusion_rule_witness :
    stepOperator (mkItem ItemType.itemSub 0 "-")
      { items := [mkItem ItemType.itemSub 0 "-"], pos := 1, parenthesis := 0,
        stream := [mkItem ItemType.itemNumber 2 "5", mkItem ItemType.itemEOF 3 ""],
        inputLen := 3, lastLexerEnd := 1 } [] =
      .cont { items := [mkItem ItemType.itemSub 0 "-", mkItem ItemType.itemNumber 2 "5"],
              pos := 2, parenthesis := 0, stream := [mkItem ItemType.itemEOF 3 ""],
              inputLen := 3, lastLexerEnd := 1 }
        [numberN (newNumber 0 "-5" NumberSystem.Dec)] :=
  C4_amended_sub_fusion_rule.1 (mkItem ItemType.itemSub 0 "-")
    { items := [mkItem ItemType.itemSub 0 "-"], pos := 1, parenthesis := 0,
      stream := [mkItem ItemType.itemNumber 2 "5", mkItem ItemType.itemEOF 3 ""],
      inputLen := 3, lastLexerEnd := 1 } []
    (mkItem ItemType.itemNumber 2 "5")
    { items := [mkItem ItemType.itemSub 0 "-", mkItem ItemType.itemNumber 2 "5"],
      pos := 1, parenthesis := 0, stream := [mkItem ItemType.itemEOF 3 ""],
      inputLen := 3, lastLexerEnd := 1 } rfl rfl rfl

/-! ## The verb drain discipline (C8) -/

/-- Characterization of the clear verb shape predicate. -/
theorem clearShapeB_eq_true (items : List Item) :
    clearShapeB items = true ↔
      ∃ i0 i1 i2, items = [i0, i1, i2] ∧ i1.typ = ItemType.itemLParen ∧
        i2.typ = ItemType.itemRParen := by
  rcases items with _ | ⟨a, _ | ⟨b, _ | ⟨c, _ | ⟨d, tl⟩⟩⟩⟩ <;>
    simp [clearShapeB]
  constructor
  · rintro ⟨h1, h2⟩
    exact ⟨a, b, c, ⟨rfl, rfl, rfl⟩, h1, h2⟩
  · rintro ⟨i0, i1, i2, ⟨rfl, rfl, rfl⟩, h1, h2⟩
    exact ⟨h1, h2⟩

/-- Characterization of the disk verb shape predicate. -/
theorem saveLoadShapeB_eq_true (items : List Item) :
    saveLoadShapeB items = true ↔
      ∃ i0 i1 i2 i3, items = [i0, i1, i2, i3] ∧ i1.typ = ItemType.itemLParen ∧
        i2.typ = ItemType.itemText ∧ i3.typ = ItemType.itemRParen := by
  rcases items with _ | ⟨a, _ | ⟨b, _ | ⟨c, _ | ⟨d, _ | ⟨e, tl⟩⟩⟩⟩⟩ <;>
    simp [saveLoadShapeB]
  constructor
  · rintro ⟨⟨h1, h2⟩, h3⟩
    exact ⟨a, b, c, d, ⟨rfl, rfl, rfl, rfl⟩, h1, h2, h3⟩
  · rintro ⟨i0, i1, i2, i3, ⟨rfl, rfl, rfl, rfl⟩, h1, h2, h3⟩
    exact ⟨⟨h1, h2⟩, h3⟩

/-- C8: once a verb (`clear`/`save`/`load`) is the first node of the line,
its branch never continues the token loop (parsing terminates immediately
with whatever the drain produced); after a successful drain the line is
accepted exactly when the drained buffer has the canonical shape, in which
case precisely the verb node and the end marker are emitted, and any other
drained buffer (trailing garbage or premature end of input) is a hard error
naming the canonical form; error items met while draining propagate their
message.  End to end: `clear()` and `save(x)` parse to verb plus end marker
and `save(x)y` and `save(x` fail with the canonical-form error. -/
theorem C8_verb_lines_demand_exact_shape :
    (∀ (itm : Item) (p1 : ParserState) (nodes : List Node),
       (∃ q, stepClear itm p1 nodes = .done q) ∧
       (∃ q, stepSaveLoad itm p1 nodes = .done q)) ∧
    (∀ (itm : Item) (p1 : ParserState) (nodes : List Node) (p2 : ParserState),
       p1.pos = 1 → drainItems (mu p1 + 1) p1 = some (.ok p2) →
       clearShapeB p2.items = true →
       stepClear itm p1 nodes =
         .done (.out (nodes ++ [newClear itm.pos, newEOF (p2.inputLen : Int)])
           none p2.lastLexerEnd)) ∧
    (∀ (itm : Item) (p1 : ParserState) (nodes : List Node) (p2 : ParserState),
       p1.pos = 1 → drainItems (mu p1 + 1) p1 = some (.ok p2) →
       clearShapeB p2.items = false →
       stepClear itm p1 nodes =
         .done (.out nodes
           (some ("unexpected " ++ itm.val ++ " at pos " ++ toString itm.pos ++
                  ", when used the input should be only: " ++ itm.val ++ "()"))
           p2.lastLexerEnd)) ∧
    (∀ (itm : Item) (p1 : ParserState) (nodes : List Node) (p2 : ParserState)
       (i0 i1 i2 i3 : Item), p1.pos = 1 →
       drainItems (mu p1 + 1) p1 = some (.ok p2) →
       p2.items = [i0, i1, i2, i3] → i1.typ = ItemType.itemLParen →
       i2.typ = ItemType.itemText → i3.typ = ItemType.itemRParen →
       stepSaveLoad itm p1 nodes =
         .done (.out (nodes ++
             [diskOperationN (newDiskOperation itm.pos itm.val i2.val),
              newEOF (p2.inputLen : Int)]) none p2.lastLexerEnd)) ∧
    (∀ (itm : Item) (p1 : ParserState) (nodes : List Node) (p2 : ParserState),
       p1.pos = 1 → drainItems (mu p1 + 1) p1 = some (.ok p2) →
       saveLoadShapeB p2.items = false →
       stepSaveLoad itm p1 nodes =
         .done (.out nodes
           (some ("unexpected " ++ itm.val ++ " at pos " ++ toString itm.pos ++
                  ", when used the input should be only: " ++ itm.val ++ "(name)"))
           p2.lastLexerEnd)) ∧
    (∀ (itm : Item) (p1 : ParserState) (nodes : List Node) (e : String),
       p1.pos = 1 → drainItems (mu p1 + 1) p1 = some (.error e) →
       stepClear itm p1 nodes = .done (.out nodes (some e) p1.lastLexerEnd) ∧
       stepSaveLoad itm p1 nodes = .done (.out nodes (some e) p1.lastLexerEnd)) ∧
    (Parse "clear()" = .out [newClear 0, newEOF 7] none 5) ∧
    (Parse "save(x)" =
      .out [diskOperationN (newDiskOperation 0 "save" "x"), newEOF 7] none 4) ∧
    (Parse "save(x)y" = .out [newParsingStopped 4]
      (some "unexpected save at pos 0, when used the input should be only: save(name)") 4) ∧
    (Parse "save(x" = .out [newParsingStopped 4]
      (some "unexpected save at pos 0, when used the input should be only: save(name)") 4) := by
  refine ⟨?_, ?_, ?_, ?_, ?_, ?_, by decide, ?_, by decide, by decide⟩
  · intro itm p1 nodes
    constructor
    · suffices H : ∀ r, stepClear itm p1 nodes = r → ∃ q, r = .done q from H _ rfl
      intro r hr
      unfold stepClear at hr
      simp only [] at hr
      repeat' split at hr
      all_goals exact ⟨_, hr.symm⟩
    · suffices H : ∀ r, stepSaveLoad itm p1 nodes = r → ∃ q, r = .done q from H _ rfl
      intro r hr
      unfold stepSaveLoad at hr
      simp only [] at hr
      repeat' split at hr
      all_goals exact ⟨_, hr.symm⟩
  · intro itm p1 nodes p2 hpos hdrain hshape
    obtain ⟨i0, i1, i2, hitems, h1, h2⟩ := (clearShapeB_eq_true p2.items).mp hshape
    unfold stepClear
    simp only []
    rw [if_neg (by simp [hpos]), hdrain]
    simp only []
    rw [hitems]
    rw [if_neg (by simp)]
    simp only []
    rw [if_neg (by simp [h1, h2])]
  · intro itm p1 nodes p2 hpos hdrain hshape
    unfold stepClear
    simp only []
    rw [if_neg (by simp [hpos]), hdrain]
    simp only []
    by_cases hlen : p2.items.length = 3
    · rcases hl : p2.items with _ | ⟨i0, _ | ⟨i1, _ | ⟨i2, _ | ⟨i3, tl⟩⟩⟩⟩
      · rw [hl] at hlen; simp at hlen
      · rw [hl] at hlen; simp at hlen
      · rw [hl] at hlen; simp at hlen
      · rw [hl] at hshape
        rw [if_neg (by simp)]
        simp only []
        rw [if_pos ?_]
        by_contra hcon
        push_neg at hcon
        simp [clearShapeB, hcon.1, hcon.2] at hshape
      · rw [hl] at hlen; simp at hlen
    · rw [if_pos (by simpa using hlen)]
  · intro itm p1 nodes p2 i0 i1 i2 i3 hpos hdrain hitems h1 h2 h3
    unfold stepSaveLoad
    simp only []
    rw [if_neg (by simp [hpos]), hdrain]
    simp only []
    rw [hitems]
    rw [if_neg (by simp)]
    simp only []
    rw [if_neg (by simp [h1, h2, h3])]
  · intro itm p1 nodes p2 hpos hdrain hshape
    unfold stepSaveLoad
    simp only []
    rw [if_neg (by simp [hpos]), hdrain]
    simp only []
    by_cases hlen : p2.items.length = 4
    · rcases hl : p2.items with _ | ⟨i0, _ | ⟨i1, _ | ⟨i2, _ | ⟨i3, _ | ⟨i4, tl⟩⟩⟩⟩⟩
      · rw [hl] at hlen; simp at hlen
      · rw [hl] at hlen; simp at hlen
      · rw [hl] at hlen; simp at hlen
      · rw [hl] at hlen; simp at hlen
      · rw [hl] at hshape
        rw [if_neg (by simp)]
        simp only []
        rw [if_pos ?_]
        by_contra hcon
        push_neg at hcon
        simp [saveLoadShapeB, hcon.1, hcon.2.1, hcon.2.2] at hshape
      · rw [hl] at hlen; simp at hlen
    · rw [if_pos (by simpa using hlen)]
  · intro itm p1 nodes e hpos hdrain
    constructor
    · unfold stepClear
      simp only []
      rw [if_neg (by simp [hpos]), hdrain]
    · unfold stepSaveLoad
      simp only []
      rw [if_neg (by simp [hpos]), hdrain]
  · decide

/-- Concrete instance of the C8 drain discipline: the clear branch of the
`clear()` line accepts and emits exactly the verb node and the end
marker. -/
theorem C8_verb_lines_demand_exact_shape_witness :
    stepClear (mkItem ItemType.itemClear 0 "clear")
      { items := [mkItem ItemType.itemClear 0 "clear"], pos := 1, parenthesis := 0,
        stream := [mkItem ItemType.itemLParen 5 "(", mkItem ItemType.itemRParen 6 ")",
                   mkItem ItemType.itemEOF 7 ""],
        inputLen := 7, lastLexerEnd := 5 } [] =
      .done (.out [newClear 0, newEOF 7] none 5) :=
  C8_verb_lines_demand_exact_shape.2.1 (mkItem ItemType.itemClear 0 "clear")
    { items := [mkItem ItemType.itemClear 0 "clear"], pos := 1, parenthesis := 0,
      stream := [mkItem ItemType.itemLParen 5 "(", mkItem ItemType.itemRParen 6 ")",
                 mkItem ItemType.itemEOF 7 ""],
      inputLen := 7, lastLexerEnd := 5 } []
    { items := [mkItem ItemType.itemClear 0 "clear", mkItem ItemType.itemLParen 5 "(",
                mkItem ItemType.itemRParen 6 ")"],
      pos := 3, parenthesis := 0, stream := [], inputLen := 7, lastLexerEnd := 5 }
    rfl rfl rfl

end Zappaclang
